import Mathlib

/-!
# valkey-vectorsearch-poc: a shallow embedding of the three Go scripts

* `load.go`         : `randomTerm`, the seeding loop of `main`
* `singlesearch.go` : reply parsing, quality score, ranking
* `test.go`         : `performSearch`, the batch loop of `main`, the final report

Conventions of the embedding.

* A Go panic and a goroutine blocked for ever are explicit faults (`Fault`).
* `math/rand` is a stream of raw draws; `rand.Intn n` reduces a raw draw into `[0, n)`.
* Go strings are only ever built here from ASCII literals, so byte length and
  character length agree and `String.length` stands for `len`.
* A `float64` is NaN, an infinity or a finite value; finite values are exact rationals
  (rounding is not modelled). A latency is kept symbolic, and its conversion to a
  `time.Duration` is a parameter of the environment.
-/

namespace VectorSearch

/-! ## Common runtime notions -/

/-- The two ways a Go function of the scripts can fail to return. -/
inductive Fault where
  | panic
  | blocked
  deriving DecidableEq, Repr

/-- `rand.Intn(n)`: panics for `n ≤ 0`, otherwise a value of `[0, n)` obtained from the raw draw. -/
def Intn (n : Nat) (raw : Nat) : Except Fault Nat :=
  if n = 0 then .error .panic else .ok (raw % n)

/-- Indexing `xs[i]` of a Go slice: panics when the index is out of range. -/
def index {α : Type} (xs : List α) (i : Nat) : Except Fault α :=
  match xs.get? i with
  | some x => .ok x
  | none => .error .panic

/-- The slice expression `s[:hi]` on a string: panics unless `0 ≤ hi ≤ len(s)`. -/
def sliceTo (s : String) (hi : Int) : Except Fault String :=
  if 0 ≤ hi ∧ hi ≤ (s.length : Int) then .ok ⟨s.data.take hi.toNat⟩ else .error .panic

/-! ## load.go -/

namespace Load

/-- The literal word list of `randomTerm`. -/
def words : List String :=
  ["cat", "dog", "car", "house", "computer", "phone", "book", "food", "travel", "music",
   "game", "movie", "sport", "tech", "health"]

/-- The loop `for i := 0; i < n; i++ { term += words[rand.Intn(len(words))] + " " }`;
the first argument counts the iterations still to run, `i` is the loop variable.
Call number `i + 1` of `rand.Intn` serves iteration `i` (call `0` chose `n`). -/
def randomTermLoop (draws : Nat → Nat) : Nat → Nat → String → Except Fault String
  | 0, _, term => .ok term
  | k + 1, i, term => do
    let j ← Intn words.length (draws (i + 1))
    let w ← index words j
    randomTermLoop draws k (i + 1) (term ++ (w ++ " "))

/-- The function `randomTerm` of load.go, over the stream of raw random draws. -/
def randomTerm (draws : Nat → Nat) : Except Fault String := do
  let r ← Intn 3 (draws 0)
  let n := r + 1
  let term ← randomTermLoop draws n 0 ""
  sliceTo term ((term.length : Int) - 1)

/-- The loop bound written in `for i := 0; i < 3000000; i++` of `main`. -/
def loopBound : Nat := 3000000

/-- The key `fmt.Sprintf("ad:%d", i)`. -/
def key (i : Nat) : String := "ad:" ++ toString i

/-- What a run of the load script has done when it stops. -/
structure LoadResult where
  /-- keys written by `HSet`, in order -/
  stored : List String
  /-- lines printed -/
  out : List String
  deriving DecidableEq, Repr

/-- The seeding loop of `main`: the first argument counts the iterations still to run,
`i` is the loop variable, `writeOk i` tells whether the `HSet` of iteration `i` succeeds. -/
def loadLoop (writeOk : Nat → Bool) : Nat → Nat → List String → LoadResult
  | 0, _, stored => ⟨stored, ["Loaded 1000 sample ads."]⟩
  | k + 1, i, stored =>
    if writeOk i then loadLoop writeOk k (i + 1) (stored ++ [key i])
    else ⟨stored, ["Error setting hash:"]⟩

/-- The function `main` of load.go: ping, drop index (a failure only warns), create index,
then the seeding loop. -/
def main (pingOk dropOk createOk : Bool) (writeOk : Nat → Bool) : LoadResult :=
  if !pingOk then ⟨[], ["Error pinging cluster:"]⟩
  else
    let warn := if dropOk then [] else ["Warning: Error dropping index:"]
    if !createOk then ⟨[], warn ++ ["Error creating index:"]⟩
    else
      let r := loadLoop writeOk loopBound 0 []
      ⟨r.stored, warn ++ r.out⟩

end Load


/-! ## Values of a search reply (`[]interface{}`) -/

/-- An element of the field array of one reply entry: a string, or any other value. -/
inductive Field where
  | str (s : String)
  | other
  deriving DecidableEq, Repr

/-- An element of the reply slice returned by `searchCmd.Val()`. -/
inductive Val where
  | int (n : Int)
  | str (s : String)
  | arr (fields : List Field)
  | other
  deriving DecidableEq, Repr

/-- The type assertion `v.(int64)`: panics on any other dynamic type. -/
def asInt : Val → Except Fault Int
  | .int n => .ok n
  | _ => .error .panic

/-- The type assertion `v.(string)`. -/
def asString : Val → Except Fault String
  | .str s => .ok s
  | _ => .error .panic

/-- The type assertion `v.([]interface{})`. -/
def asArr : Val → Except Fault (List Field)
  | .arr fs => .ok fs
  | _ => .error .panic

/-- One entry of a well-formed reply: a key and its field array. -/
structure Entry where
  key : String
  fields : List Field
  deriving DecidableEq, Repr

/-- A well-formed reply `[total, key1, fields1, ..., keyk, fieldsk]`. -/
structure Reply where
  total : Int
  entries : List Entry
  deriving DecidableEq, Repr

/-- The two slice elements an entry occupies. -/
def Entry.raw (e : Entry) : List Val := [.str e.key, .arr e.fields]

/-- The slice that carries a well-formed reply. -/
def Reply.raw (r : Reply) : List Val :=
  .int r.total :: (r.entries.map Entry.raw).flatten

/-! ## Sorting with a `less` function -/

/-- Put `x` in front of the first element it is `less` than. -/
def insertBy {α : Type} (less : α → α → Bool) (x : α) : List α → List α
  | [] => [x]
  | y :: ys => if less x y then x :: y :: ys else y :: insertBy less x ys

/-- An insertion sort driven by `less`, taking the elements from left to right; it sorts
the retained samples of the aggregator. -/
def sortSlice {α : Type} (less : α → α → Bool) (xs : List α) : List α :=
  xs.foldl (fun acc x => insertBy less x acc) []

/-! ## float64 -/

/-- A `float64`: NaN, the two infinities, or a finite value, kept as an exact rational
(rounding and the sign of zero are not modelled). -/
inductive F64 where
  | nan
  | ninf
  | fin (q : ℚ)
  | pinf
  deriving DecidableEq, Repr

namespace F64

/-- Negation. -/
def neg : F64 → F64
  | nan => nan
  | ninf => pinf
  | fin q => fin (-q)
  | pinf => ninf

/-- Addition: NaN is absorbing and the sum of opposite infinities is NaN. -/
def add : F64 → F64 → F64
  | nan, _ => nan
  | _, nan => nan
  | pinf, ninf => nan
  | ninf, pinf => nan
  | pinf, _ => pinf
  | _, pinf => pinf
  | ninf, _ => ninf
  | _, ninf => ninf
  | fin a, fin b => fin (a + b)

/-- Subtraction. -/
def sub (a b : F64) : F64 := add a (neg b)

/-- An infinity of the sign of `q`, NaN for `q = 0`; `up` tells the sign of the infinity
that `q` multiplies. -/
def scaleInf (up : Bool) (q : ℚ) : F64 :=
  if q = 0 then nan else if (0 < q) = up then pinf else ninf

/-- Multiplication: NaN is absorbing and zero times an infinity is NaN. -/
def mul : F64 → F64 → F64
  | nan, _ => nan
  | _, nan => nan
  | pinf, pinf => pinf
  | ninf, ninf => pinf
  | pinf, ninf => ninf
  | ninf, pinf => ninf
  | pinf, fin q => scaleInf true q
  | fin q, pinf => scaleInf true q
  | ninf, fin q => scaleInf false q
  | fin q, ninf => scaleInf false q
  | fin a, fin b => fin (a * b)

/-- The comparison `a > b`: false as soon as one side is NaN. -/
def gt : F64 → F64 → Bool
  | nan, _ => false
  | _, nan => false
  | ninf, _ => false
  | pinf, pinf => false
  | pinf, _ => true
  | fin _, ninf => true
  | fin _, pinf => false
  | fin a, fin b => decide (b < a)

/-- The comparison `a >= b`: false as soon as one side is NaN. -/
def ge : F64 → F64 → Bool
  | nan, _ => false
  | _, nan => false
  | pinf, _ => true
  | _, ninf => true
  | ninf, _ => false
  | fin _, pinf => false
  | fin a, fin b => decide (b ≤ a)

end F64

instance : Add F64 := ⟨F64.add⟩

instance : Sub F64 := ⟨F64.sub⟩

instance : Mul F64 := ⟨F64.mul⟩

/-! ## singlesearch.go -/

namespace SingleSearch

/-- The struct `AdResult`. -/
structure AdResult where
  Key : String
  Term : String
  Score : F64
  deriving DecidableEq, Repr

/-- The assignment `s, _ := fields[i].(string)`: the empty string when the element is not
a string. It is only used under the guard `len(fields) >= 10`, with `i < 10`. -/
def strAt (fields : List Field) (i : Nat) : String :=
  match fields.get? i with
  | some (.str s) => s
  | _ => ""

/-- Points for the expected click-through rate. -/
def ctrPoints (ctrVal : F64) : F64 :=
  if ctrVal.gt (.fin 0.05) then .fin 3.5 else if ctrVal.gt (.fin 0.02) then .fin 1.75
  else .fin 0.0

/-- Points for the ad relevance. -/
def relPoints (relVal : F64) : F64 :=
  if relVal.gt (.fin 0.8) then .fin 2 else if relVal.gt (.fin 0.5) then .fin 1 else .fin 0.0

/-- Points for the landing experience. -/
def landPoints (landVal : F64) : F64 :=
  if landVal.gt (.fin 0.7) then .fin 3.5 else if landVal.gt (.fin 0.4) then .fin 1.75
  else .fin 0.0

/-- The body of the parsing loop for an entry that passed the length guard; `parseFloat`
stands for the helper of that name (`strconv.ParseFloat`, its error dropped). -/
def mkAd (parseFloat : String → F64) (key : String) (fields : List Field) : AdResult :=
  let ctr := strAt fields 1
  let rel := strAt fields 3
  let land := strAt fields 5
  let sim := strAt fields 7
  let term := strAt fields 9
  let ctrVal := parseFloat ctr
  let relVal := parseFloat rel
  let landVal := parseFloat land
  let simVal := parseFloat sim
  let qualityScore := F64.fin 1 + ctrPoints ctrVal + relPoints relVal + landPoints landVal
  let qualityScore := qualityScore * (F64.fin 1 - simVal)
  { Key := key, Score := qualityScore, Term := term }

/-- The loop `for i := 1; i < len(res); i += 2`, run over `res[i:]`. -/
def parseLoop (parseFloat : String → F64) :
    List Val → List AdResult → Except Fault (List AdResult)
  | [], ads => .ok ads
  | [k], _ => do
    let _ ← asString k
    .error .panic
  | k :: f :: rest, ads => do
    let key ← asString k
    let fields ← asArr f
    if fields.length < 10 then parseLoop parseFloat rest ads
    else parseLoop parseFloat rest (ads ++ [mkAd parseFloat key fields])

/-- The comparison handed to `sort.Slice`: `ads[i].Score > ads[j].Score`. -/
def less (a b : AdResult) : Bool := a.Score.gt b.Score

/-- The inner loop `for j := i; j > a && less(data[j], data[j-1]); j-- { swap }` of the
library's insertion sort: `x` is `data[i]` and the list is `data[:i]` read backwards
(nearest element first); the result is `data[:i+1]` read backwards. -/
def bubble {α : Type} (less : α → α → Bool) (x : α) : List α → List α
  | [] => [x]
  | y :: ys => if less x y then y :: bubble less x ys else x :: y :: ys

/-- The library call `sort.Slice(xs, less)`, whose source is not part of the repository:
the insertion sort that the library runs on slices of at most 12 elements (longer slices
go through another comparison sort, which is not modelled). -/
def insertionSort {α : Type} (less : α → α → Bool) (xs : List α) : List α :=
  (xs.foldl (fun rev x => bubble less x rev) []).reverse

/-- What the script prints. -/
inductive Output where
  | usage
  | pingError
  | searchError
  | noResults
  | ranked (total : Int) (ads : List AdResult)
  deriving DecidableEq, Repr

/-- The function `main` of singlesearch.go; `processed` is `none` when `client.Process`
fails and the value of `searchCmd.Val()` otherwise. -/
def main (parseFloat : String → F64) (searchTerm : String) (pingOk : Bool)
    (processed : Option (List Val)) : Except Fault Output :=
  if searchTerm = "" then .ok .usage
  else if !pingOk then .ok .pingError
  else
    match processed with
    | none => .ok .searchError
    | some res =>
      match res with
      | [] => .ok .noResults
      | t :: rest => do
        let total ← asInt t
        let ads ← parseLoop parseFloat rest []
        let ads := insertionSort less ads
        .ok (.ranked total ads)

/-! ### A reply with a NaN similarity -/

/-- The values `strconv.ParseFloat` gives the strings of `nanReply`; NaN for "NaN", and 0
for a string that is not a number (the error is dropped). -/
def sampleParse (s : String) : F64 :=
  if s = "NaN" then .nan
  else if s = "0.06" then .fin 0.06
  else if s = "0.9" then .fin 0.9
  else if s = "0.8" then .fin 0.8
  else if s = "0.5" then .fin 0.5
  else if s = "0.1" then .fin 0.1
  else .fin 0

/-- The five returned fields of one ad, names and values in the order of `RETURN`. -/
def adFields (ctr rel land sim term : String) : List Field :=
  [.str "expected_ctr", .str ctr, .str "ad_relevance", .str rel,
   .str "landing_experience", .str land, .str "sim_score", .str sim,
   .str "search_term", .str term]

/-- A well-formed reply of three ads, the second with the similarity "NaN". -/
def nanReply : Reply :=
  { total := 3
    entries :=
      [⟨"ad:1", adFields "0.06" "0" "0" "0.5" "phone"⟩,
       ⟨"ad:2", adFields "0.06" "0" "0" "NaN" "phone"⟩,
       ⟨"ad:3", adFields "0.06" "0.9" "0.8" "0.1" "phone"⟩] }

end SingleSearch

/-! ## The latency aggregator used by test.go -/

/-- The statistics printed at the end of a run (durations in nanoseconds). -/
structure Report where
  count : Nat
  max : Nat
  min : Nat
  p95 : Nat
  p99 : Nat
  p999 : Nat
  deriving DecidableEq, Repr

namespace Aggregator

/-- Modelled from the spec: the percentile index of section 4.4, "for sample count N and
percentile P, index = ceil(P/100 * N) - 1, clamped to [0, N-1]". The library that
computes the percentiles (tachymeter) is not among the sources. -/
def percentileIndex (P : ℚ) (N : Nat) : Nat :=
  (Max.max 0 (Min.min (⌈P / 100 * (N : ℚ)⌉ - 1) ((N : Int) - 1))).toNat

/-- Modelled from the spec: `record` of section 4.4 (the library's `AddTime` is not among
the sources). Below capacity the sample is appended; at capacity the spec leaves the
policy to the implementer, so it is the parameter `overflow`. -/
def record (capacity : Nat) (overflow : List Nat → Nat → List Nat) (samples : List Nat)
    (x : Nat) : List Nat :=
  if samples.length < capacity then samples ++ [x] else overflow samples x

/-- Modelled from the spec: `snapshot` of section 4.4 (the library's `Calc` is not among
the sources). It sorts the retained samples ascending and reads count, min, max and the
percentiles by index; on an empty reservoir every field is 0. -/
def snapshot (retained : List Nat) : Report :=
  let sorted := sortSlice (fun a b => decide (a < b)) retained
  let N := sorted.length
  { count := N
    max := sorted.getD (N - 1) 0
    min := sorted.getD 0 0
    p95 := sorted.getD (percentileIndex 95 N) 0
    p99 := sorted.getD (percentileIndex 99 N) 0
    p999 := sorted.getD (percentileIndex 99.9 N) 0 }

end Aggregator

/-! ## test.go -/

namespace Test

/-- What `client.Process` and `searchCmd.Val()` hand to `performSearch`: an error, or the
reply slice together with the time elapsed since `start`, in nanoseconds. -/
inductive Processed where
  | err
  | val (res : List Val) (elapsed : Nat)
  deriving DecidableEq, Repr

/-- The collaborator's answer to one query: a failure, or a success whose reply is empty
(`none`) or well formed, with the elapsed time in nanoseconds. -/
inductive Answer where
  | failure
  | success (reply : Option Reply) (elapsed : Nat)
  deriving DecidableEq, Repr

/-- An answer as the Go client presents it. -/
def Answer.processed : Answer → Processed
  | .failure => .err
  | .success none elapsed => .val [] elapsed
  | .success (some r) elapsed => .val r.raw elapsed

/-- Whether the answer is a success. -/
def Answer.ok : Answer → Bool
  | .failure => false
  | .success _ _ => true

/-- A latency as `performSearch` returns it, a `float64` number of milliseconds: the literal
0 of the error path, or `time.Since(start).Seconds() * 1000` for an elapsed time in
nanoseconds. -/
inductive Latency where
  | zero
  | since (elapsed : Nat)
  deriving DecidableEq, Repr

/-- The conversion `time.Duration(lat * float64(time.Millisecond))` in `main`: 0 for the
literal 0; for a measured latency `conv elapsed`, where `conv` stands for the `float64`
arithmetic from the elapsed nanoseconds to milliseconds and back to truncated
nanoseconds, which need not return `elapsed`. -/
def toDuration (conv : Nat → Nat) : Latency → Nat
  | .zero => 0
  | .since elapsed => conv elapsed

/-- Observable events of a run: calls to the collaborator and printed lines. -/
inductive Event where
  | openError
  | readError
  | noTerms
  | ping
  | pingError
  | query (term : String)
  | searchError
  | sampleHeader
  | total (n : Int)
  | entry (key : String) (fields : List Field)
  | report (r : Report)
  deriving DecidableEq, Repr

/-- Everything a run depends on besides the clock: `draw b i` is the raw random draw of
trial `i` of batch `b`, `order b` the order in which the goroutines of batch `b` run,
`collab b i term` the collaborator's answer to the query of that trial (the query vector
is a function of the term), `conv` the `float64` round trip of `toDuration`. -/
structure Env where
  draw : Nat → Nat → Nat
  order : Nat → List Nat
  collab : Nat → Nat → String → Answer
  conv : Nat → Nat

/-- The function `performSearch`: result `(total, latency, res)` and the extended event
log. -/
def performSearch (searchTerm : String) (p : Processed) (out : List Event) :
    Except Fault ((Int × Latency × List Val) × List Event) :=
  let out := out ++ [.query searchTerm]
  match p with
  | .err => .ok ((0, .zero, []), out ++ [.searchError])
  | .val res elapsed => do
    let total ←
      match res with
      | [] => pure 0
      | t :: _ => asInt t
    let latency := Latency.since elapsed
    .ok ((total, latency, res), out)

/-- A send on a buffered channel that nobody reads before the join: it goes through while
the buffer has room and blocks for ever otherwise. -/
def send {α : Type} (cap : Nat) (buf : List α) (v : α) : Except Fault (List α) :=
  if buf.length < cap then .ok (buf ++ [v]) else .error .blocked

/-- What the goroutines of one batch share. -/
structure Chans where
  /-- buffer of `latencies`, capacity `numSearchesPerBatch` -/
  latencies : List Latency
  /-- buffer of `resultsChan`, capacity 1 -/
  resultsChan : List (List Val)
  /-- counter of the `sync.WaitGroup` -/
  wg : Nat
  out : List Event
  deriving DecidableEq, Repr

/-- The constant `numSearchesPerBatch` of `main`. -/
def numSearchesPerBatch : Nat := 1

/-- The body of the goroutine `func(idx int)` of batch `b`, run in one piece: the
goroutines of a batch share only the two channels and the wait group, and the channels
are only written before the join, so an interleaving is determined by the order of the
sends. -/
def trial (terms : List String) (env : Env) (B : Nat) (sampleDone : Bool) (b idx : Nat)
    (c : Chans) : Except Fault Chans := do
  let k ← Intn terms.length (env.draw b idx)
  let term ← index terms k
  let ((_total, latency, res), out) ← performSearch term (env.collab b idx term).processed c.out
  let latencies ← send B c.latencies latency
  let resultsChan ←
    if !sampleDone && idx == 0 then send 1 c.resultsChan res else pure c.resultsChan
  -- deferred wg.Done()
  if c.wg = 0 then .error .panic
  else .ok { latencies := latencies, resultsChan := resultsChan, wg := c.wg - 1, out := out }

/-- The goroutines of batch `b` in the order given. -/
def runTrials (terms : List String) (env : Env) (B : Nat) (sampleDone : Bool) (b : Nat) :
    List Nat → Chans → Except Fault Chans
  | [], c => .ok c
  | idx :: rest, c => do
    let c ← trial terms env B sampleDone b idx c
    runTrials terms env B sampleDone b rest c

/-- The call `wg.Wait()`: it returns when the counter is 0 and blocks otherwise. -/
def wgWait (c : Chans) : Except Fault Chans :=
  if c.wg = 0 then .ok c else .error .blocked

/-- The dispatch loop of one batch and `wg.Wait()`: fresh channels, `B` calls of
`wg.Add(1)`, the goroutines in the order `env.order b`, then the join, which blocks unless
the counter is 0. Every `wg.Add(1)` precedes the start of its goroutine and `wg.Wait()`
follows the whole dispatch loop, so the counter the join sees is `B` less the number of
goroutines that are done; the sleep taken every `concurrency` dispatches only delays. -/
def joinBatch (terms : List String) (env : Env) (B : Nat) (sampleDone : Bool) (b : Nat)
    (out : List Event) : Except Fault Chans := do
  let c ← runTrials terms env B sampleDone b (env.order b)
    { latencies := [], resultsChan := [], wg := B, out := out }
  wgWait c

/-- The loop `for lat := range latencies { tach.AddTime(time.Duration(...)) }` on the
closed channel: what is left in the buffer, and the arguments of `AddTime` so far. -/
def drain (conv : Nat → Nat) : List Latency → List Nat → List Latency × List Nat
  | [], added => ([], added)
  | lat :: rest, added => drain conv rest (added ++ [toDuration conv lat])

/-- The loop `for j := 1; j < len(res); j += 2` of the sample dump, run over `res[j:]`. -/
def dumpLoop : List Val → List Event → Except Fault (List Event)
  | [], out => .ok out
  | [k], _ => do
    let _ ← asString k
    .error .panic
  | k :: f :: rest, out => do
    let key ← asString k
    let fields ← asArr f
    dumpLoop rest (out ++ [.entry key fields])

/-- The sample dump of a non-empty result set. -/
def dump (res : List Val) (out : List Event) : Except Fault (List Event) :=
  match res with
  | [] => .error .panic
  | t :: rest => do
    let out := out ++ [.sampleHeader]
    let total ← asInt t
    dumpLoop rest (out ++ [.total total])

/-- The variables of `main` that live across batches. -/
structure State where
  sampleDone : Bool
  /-- arguments of `tach.AddTime` so far, in order -/
  added : List Nat
  out : List Event
  deriving DecidableEq, Repr

/-- One iteration of the batch loop of `main`, for batch number `b`. -/
def batch (terms : List String) (env : Env) (B : Nat) (b : Nat) (s : State) :
    Except Fault State := do
  let c ← joinBatch terms env B s.sampleDone b s.out
  let (_, added) := drain env.conv c.latencies s.added
  if !s.sampleDone then
    -- res, ok := <-resultsChan on the closed channel
    match c.resultsChan with
    | res :: _ =>
      if res.length > 0 then do
        let out ← dump res c.out
        .ok { sampleDone := true, added := added, out := out }
      else .ok { sampleDone := false, added := added, out := c.out }
    | [] => .ok { sampleDone := false, added := added, out := c.out }
  else .ok { sampleDone := s.sampleDone, added := added, out := c.out }

/-- The first `k` iterations of the batch loop, from batch number `b` on. -/
def batches (terms : List String) (env : Env) (B : Nat) :
    Nat → Nat → State → Except Fault State
  | 0, _, s => .ok s
  | k + 1, b, s => do
    let s ← batch terms env B b s
    batches terms env B k (b + 1) s

/-- The loop `for time.Now().Before(endTime) { ... }`: `clock b` is the reading of
`time.Now()` at the test before batch `b`. The result is `none` when the fuel runs out
before the deadline is seen. -/
def runLoop (terms : List String) (env : Env) (B : Nat) (endTime : Int) (clock : Nat → Int) :
    Nat → Nat → State → Except Fault (Option State)
  | 0, _, _ => .ok none
  | fuel + 1, b, s =>
    if clock b < endTime then do
      let s ← batch terms env B b s
      runLoop terms env B endTime clock fuel (b + 1) s
    else .ok (some s)

/-- The variables of `main` when the batch loop is entered (the ping has been sent). -/
def initState : State := { sampleDone := false, added := [], out := [.ping] }

/-- The configuration `tachymeter.Config{Size: 10000}`. -/
def tachSize : Nat := 10000

/-- The window `5 * time.Minute`, in nanoseconds. -/
def fiveMinutes : Int := 300000000000

/-- What `main` reads before the loop. -/
structure Setup where
  openOk : Bool
  /-- lines of search_terms.txt -/
  lines : List String
  scanOk : Bool
  pingOk : Bool
  /-- reading of `time.Now()` for `startTime` -/
  startTime : Int

/-- The function `main` of test.go with the batch size, the window and the aggregator's
overflow policy as parameters; the result is the event log, or `none` when the fuel runs
out. -/
def mainWith (B : Nat) (duration : Int) (overflow : List Nat → Nat → List Nat)
    (setup : Setup) (env : Env) (clock : Nat → Int) (fuel : Nat) :
    Except Fault (Option (List Event)) :=
  if !setup.openOk then .ok (some [.openError])
  else
    let terms := setup.lines
    if !setup.scanOk then .ok (some [.readError])
    else if terms.length = 0 then .ok (some [.noTerms])
    else if !setup.pingOk then .ok (some [.ping, .pingError])
    else do
      let endTime := setup.startTime + duration
      let r ← runLoop terms env B endTime clock fuel 0 initState
      match r with
      | none => .ok none
      | some s =>
        let tach := s.added.foldl (Aggregator.record tachSize overflow) []
        let results := Aggregator.snapshot tach
        .ok (some (s.out ++ [.report results]))

/-- The function `main` of test.go. -/
def main (overflow : List Nat → Nat → List Nat) (setup : Setup) (env : Env)
    (clock : Nat → Int) (fuel : Nat) : Except Fault (Option (List Event)) :=
  mainWith numSearchesPerBatch fiveMinutes overflow setup env clock fuel

/-! ### Observers used to state the properties of test.go -/

/-- The term that trial `i` of batch `b` selects. -/
def termOf (terms : List String) (env : Env) (b i : Nat) : String :=
  terms.getD (env.draw b i % terms.length) ""

/-- The collaborator's answer to trial `i` of batch `b`. -/
def answerOf (terms : List String) (env : Env) (b i : Nat) : Answer :=
  env.collab b i (termOf terms env b i)

/-- The latency `performSearch` returns for an answer. -/
def Answer.latency : Answer → Latency
  | .failure => .zero
  | .success _ elapsed => .since elapsed

/-- The result set `performSearch` returns for an answer. -/
def Answer.res : Answer → List Val
  | .failure => []
  | .success none _ => []
  | .success (some r) _ => r.raw

/-- The events of trial `i` of batch `b`. -/
def trialEvents (terms : List String) (env : Env) (b i : Nat) : List Event :=
  .query (termOf terms env b i) ::
    (if (answerOf terms env b i).ok then [] else [.searchError])

/-- Whether the first-dispatched trial of batch `b` returns a non-empty result set. -/
def available (terms : List String) (env : Env) (b : Nat) : Bool :=
  !(answerOf terms env b 0).res.isEmpty

/-- The number of trials of batch `b` whose collaborator call succeeds. -/
def successes (terms : List String) (env : Env) (B b : Nat) : Nat :=
  ((List.range B).filter (fun i => (answerOf terms env b i).ok)).length

/-- The lines of the sample dump of a well-formed reply. -/
def replyDump (r : Reply) : List Event :=
  [.sampleHeader, .total r.total] ++ r.entries.map (fun e => .entry e.key e.fields)

/-- The lines of the sample dump of the result set of an answer. -/
def Answer.dumpEvents : Answer → List Event
  | .success (some r) _ => replyDump r
  | _ => []

/-- The sample dump of the earliest batch among `b0, ..., b0 + k - 1` whose first-dispatched
trial returns a non-empty result set; no line when there is no such batch. -/
def firstDump (terms : List String) (env : Env) (b0 k : Nat) : List Event :=
  match (List.range' b0 k).find? (available terms env) with
  | some b => (answerOf terms env b 0).dumpEvents
  | none => []

/-- Whether an event is a line of the sample dump. -/
def isDump : Event → Bool
  | .sampleHeader => true
  | .total _ => true
  | .entry _ _ => true
  | _ => false

/-- Whether an event is a query sent to the collaborator. -/
def isQuery : Event → Bool
  | .query _ => true
  | _ => false

/-! ### Sample environments -/

/-- One trial per batch, every query fails. -/
def envAllFail : Env :=
  { draw := fun _ _ => 0
    order := fun _ => [0]
    collab := fun _ _ _ => .failure
    conv := fun elapsed => elapsed }

/-- One trial per batch; the query of batch 0 fails, every later one returns one entry. -/
def envFailFirst : Env :=
  { draw := fun b _ => b
    order := fun _ => [0]
    collab := fun b _ term =>
      if b = 0 then .failure
      else .success (some ⟨1, [⟨"ad:7", [.str "search_term", .str term]⟩]⟩) 2000000
    conv := fun elapsed => elapsed }

/-- Two trials per batch, finishing in the reverse of dispatch order; trial 1 fails, and the
latency of trial 0, 222364 ns, is recorded as 222363 ns. -/
def envTwo : Env :=
  { draw := fun b i => b + i
    order := fun _ => [1, 0]
    collab := fun _ i term =>
      if i = 1 then .failure
      else .success (some ⟨2, [⟨"ad:1", [.str term]⟩, ⟨"ad:2", []⟩]⟩) 222364
    conv := fun elapsed => if elapsed = 222364 then 222363 else elapsed }

/-- A setup in which the file and the connection are fine. -/
def setupOk : Setup :=
  { openOk := true, lines := ["cat", "dog"], scanOk := true, pingOk := true, startTime := 50 }

end Test

/-! ## Theorems -/

theorem ok_bind {ε α β : Type} (a : α) (f : α → Except ε β) :
    (Except.ok a >>= f) = f a := rfl

theorem error_bind {ε α β : Type} (e : ε) (f : α → Except ε β) :
    ((Except.error e : Except ε α) >>= f) = Except.error e := rfl

namespace Load

theorem index_words (d : Nat) :
    ∃ w, index words (d % 15) = .ok w ∧ w ∈ words ∧ w ≠ "" ∧ ' ' ∉ w.data := by
  have h : d % 15 < 15 := Nat.mod_lt _ (by decide)
  interval_cases (d % 15) <;> exact ⟨_, rfl, by decide, by decide, by decide⟩

theorem sliceTo_trim (s : String) :
    sliceTo (s ++ " ") (((s ++ " ").length : Int) - 1) = .ok s := by
  have hl : (s ++ " ").length = s.length + 1 := by
    rw [String.length_append]; rfl
  have hd : (s ++ " ").data = s.data ++ [' '] := by
    simp [String.data_append]
  unfold sliceTo
  rw [hl]
  have : (0 : Int) ≤ ((s.length + 1 : Nat) : Int) - 1 ∧
      ((s.length + 1 : Nat) : Int) - 1 ≤ ((s.length + 1 : Nat) : Int) := by
    constructor <;> push_cast <;> omega
  rw [if_pos this]
  have ht : (((s.length + 1 : Nat) : Int) - 1).toNat = s.data.length := by
    show _ = s.length
    omega
  rw [ht, hd, List.take_left]

theorem loadLoop_all_ok (k i : Nat) (stored : List String) :
    loadLoop (fun _ => true) k i stored =
      ⟨stored ++ (List.range' i k).map key, ["Loaded 1000 sample ads."]⟩ := by
  induction k generalizing i stored with
  | zero => simp [loadLoop]
  | succ k ih =>
    simp only [loadLoop, if_true]
    rw [ih]
    simp [List.range'_succ]

theorem randomTermLoop_step (draws : Nat → Nat) (k i : Nat) (term : String) :
    ∃ w, w ∈ words ∧ w ≠ "" ∧ ' ' ∉ w.data ∧
      randomTermLoop draws (k + 1) i term = randomTermLoop draws k (i + 1) (term ++ (w ++ " ")) := by
  obtain ⟨w, hw, hm, hne, hsp⟩ := index_words (draws (i + 1))
  refine ⟨w, hm, hne, hsp, ?_⟩
  have hI : Intn words.length (draws (i + 1)) = .ok (draws (i + 1) % 15) := by
    simp [Intn, words]
  simp only [randomTermLoop, hI, ok_bind, hw]

theorem str_assoc1 (w : String) : "" ++ (w ++ " ") = w ++ " " := by
  apply String.ext; simp [String.data_append]

theorem str_assoc2 (a b : String) : "" ++ (a ++ " ") ++ (b ++ " ") = (a ++ " " ++ b) ++ " " := by
  apply String.ext; simp [String.data_append]

theorem str_assoc3 (a b c : String) :
    "" ++ (a ++ " ") ++ (b ++ " ") ++ (c ++ " ") = (a ++ " " ++ b ++ " " ++ c) ++ " " := by
  apply String.ext; simp [String.data_append]

/-- C10. For every outcome of its random draws `randomTerm` returns (it does not panic, so
the slice `term[:len(term)-1]` is in bounds) the join by single spaces of `n` words of its
fixed list, `n = draw % 3 + 1` lying in `1..3`; the result is not empty, has no leading and
no trailing space, and holds exactly `n - 1` spaces. -/
theorem randomTerm_words (draws : Nat → Nat) :
    ∃ ws : List String, ws.length = draws 0 % 3 + 1 ∧ 1 ≤ ws.length ∧ ws.length ≤ 3 ∧
      (∀ w ∈ ws, w ∈ words) ∧
      randomTerm draws = .ok (" ".intercalate ws) ∧
      (" ".intercalate ws) ≠ "" ∧
      (" ".intercalate ws).data.head? ≠ some ' ' ∧
      (" ".intercalate ws).data.getLast? ≠ some ' ' ∧
      (" ".intercalate ws).data.count ' ' = ws.length - 1 := by
  have h3 : draws 0 % 3 < 3 := Nat.mod_lt _ (by decide)
  have hI : Intn 3 (draws 0) = .ok (draws 0 % 3) := by simp [Intn]
  have hcount : ∀ w : String, ' ' ∉ w.data → w.data.count ' ' = 0 := fun w h =>
    List.count_eq_zero.mpr h
  have hhead : ∀ (w : String) (l : List Char), w ≠ "" → ' ' ∉ w.data →
      (w.data ++ l).head? ≠ some ' ' := by
    intro w l hne hsp
    rcases w with ⟨_ | ⟨c, cs⟩⟩
    · exact absurd rfl hne
    · intro h
      simp only [List.cons_append, List.head?_cons, Option.some.injEq] at h
      exact hsp (by simp [h])
  have hlast : ∀ (w : String) (l : List Char), w ≠ "" → ' ' ∉ w.data →
      (l ++ w.data).getLast? ≠ some ' ' := by
    intro w l hne hsp h
    have hd : w.data ≠ [] := by
      intro h0; apply hne; apply String.ext; simpa using h0
    rw [List.getLast?_append_of_ne_nil _ hd] at h
    exact hsp (List.mem_of_getLast?_eq_some h)
  simp only [randomTerm, hI, ok_bind]
  interval_cases hr : (draws 0 % 3)
  · obtain ⟨a, ha, hane, hasp, e1⟩ := randomTermLoop_step draws 0 0 ""
    refine ⟨[a], rfl, by simp, by simp, by simpa using ha, ?_, ?_, ?_, ?_, ?_⟩
    · rw [e1]
      simp only [randomTermLoop, ok_bind, str_assoc1]
      exact sliceTo_trim a
    · simpa [String.intercalate, String.intercalate.go] using hane
    · simpa [String.intercalate, String.intercalate.go] using hhead a [] hane hasp
    · simpa [String.intercalate, String.intercalate.go] using hlast a [] hane hasp
    · simpa [String.intercalate, String.intercalate.go] using hcount a hasp
  · obtain ⟨a, ha, hane, hasp, e1⟩ := randomTermLoop_step draws 1 0 ""
    obtain ⟨b, hb, hbne, hbsp, e2⟩ := randomTermLoop_step draws 0 1 ("" ++ (a ++ " "))
    have hi : " ".intercalate [a, b] = a ++ " " ++ b := by
      simp [String.intercalate, String.intercalate.go]
    have hdat : (a ++ " " ++ b).data = a.data ++ ([' '] ++ b.data) := by
      simp [String.data_append]
    have hdat' : (a ++ " " ++ b).data = (a.data ++ [' ']) ++ b.data := by
      simp [String.data_append]
    refine ⟨[a, b], rfl, by simp, by simp, ?_, ?_, ?_, ?_, ?_, ?_⟩
    · intro w hw
      simp only [List.mem_cons, List.mem_singleton, List.not_mem_nil, or_false] at hw
      rcases hw with rfl | rfl <;> assumption
    · rw [e1, e2]
      simp only [randomTermLoop, ok_bind, str_assoc2, hi]
      exact sliceTo_trim _
    · rw [hi]
      intro h
      have := congrArg String.data h
      rw [hdat] at this
      simp at this
    · rw [hi, hdat]; exact hhead a _ hane hasp
    · rw [hi, hdat']; exact hlast b _ hbne hbsp
    · rw [hi, hdat]
      simp [List.count_append, hcount a hasp, hcount b hbsp]
  · obtain ⟨a, ha, hane, hasp, e1⟩ := randomTermLoop_step draws 2 0 ""
    obtain ⟨b, hb, hbne, hbsp, e2⟩ := randomTermLoop_step draws 1 1 ("" ++ (a ++ " "))
    obtain ⟨c, hc, hcne, hcsp, e3⟩ :=
      randomTermLoop_step draws 0 2 ("" ++ (a ++ " ") ++ (b ++ " "))
    have hi : " ".intercalate [a, b, c] = a ++ " " ++ b ++ " " ++ c := by
      simp [String.intercalate, String.intercalate.go]
    have hdat : (a ++ " " ++ b ++ " " ++ c).data =
        a.data ++ ([' '] ++ (b.data ++ ([' '] ++ c.data))) := by
      simp [String.data_append]
    have hdat' : (a ++ " " ++ b ++ " " ++ c).data =
        (a.data ++ [' '] ++ b.data ++ [' ']) ++ c.data := by
      simp [String.data_append]
    refine ⟨[a, b, c], rfl, by simp, by simp, ?_, ?_, ?_, ?_, ?_, ?_⟩
    · intro w hw
      simp only [List.mem_cons, List.mem_singleton, List.not_mem_nil, or_false] at hw
      rcases hw with rfl | rfl | rfl <;> assumption
    · rw [e1, e2, e3]
      simp only [randomTermLoop, ok_bind, str_assoc3, hi]
      exact sliceTo_trim _
    · rw [hi]
      intro h
      have := congrArg String.data h
      rw [hdat] at this
      simp at this
    · rw [hi, hdat]; exact hhead a _ hane hasp
    · rw [hi, hdat']; exact hlast c _ hcne hcsp
    · rw [hi, hdat]
      simp [List.count_append, hcount a hasp, hcount b hbsp, hcount c hcsp]

/-- C9 (the code at the failing input). With the index created and every write
succeeding, `main` stores one record for each `i < 3000000`, under the keys `ad:0`,
`ad:1`, ..., in order: 3000000 records and not 1000, the key `ad:1000` among them, and
then prints "Loaded 1000 sample ads.". -/
theorem load_main_stores_three_million (dropOk : Bool) :
    (main true dropOk true (fun _ => true)).stored = (List.range 3000000).map key ∧
    (main true dropOk true (fun _ => true)).stored.length = 3000000 ∧
    (main true dropOk true (fun _ => true)).stored.length ≠ 1000 ∧
    key 1000 ∈ (main true dropOk true (fun _ => true)).stored ∧
    (main true dropOk true (fun _ => true)).out.getLast? = some "Loaded 1000 sample ads." := by
  have hs : (main true dropOk true (fun _ => true)).stored = (List.range 3000000).map key := by
    simp [main, loadLoop_all_ok, loopBound, List.range_eq_range']
  have ho : (main true dropOk true (fun _ => true)).out.getLast? =
      some "Loaded 1000 sample ads." := by
    cases dropOk <;> simp [main, loadLoop_all_ok]
  refine ⟨hs, ?_, ?_, ?_, ho⟩
  · rw [hs]; simp
  · rw [hs]; simp
  · rw [hs]
    exact List.mem_map.mpr ⟨1000, List.mem_range.mpr (by norm_num), rfl⟩

end Load

/-! ### test.go: the batch loop -/

namespace Test

theorem pick_ok (terms : List String) (h : terms ≠ []) (r : Nat) :
    r % terms.length < terms.length ∧
    Intn terms.length r = .ok (r % terms.length) ∧
    index terms (r % terms.length) = .ok (terms.getD (r % terms.length) "") ∧
    terms.getD (r % terms.length) "" ∈ terms := by
  have hlen : 0 < terms.length := List.length_pos.mpr h
  have hlt : r % terms.length < terms.length := Nat.mod_lt _ hlen
  refine ⟨hlt, ?_, ?_, ?_⟩
  · simp [Intn, Nat.pos_iff_ne_zero.mp hlen]
  · simp [index, List.getD, List.getElem?_eq_getElem hlt]
  · simp [List.getD, List.getElem?_eq_getElem hlt]

theorem performSearch_answer (term : String) (a : Answer) (out : List Event) :
    ∃ total, performSearch term a.processed out =
      .ok ((total, a.latency, a.res),
        out ++ (.query term :: (if a.ok then [] else [.searchError]))) := by
  rcases a with _ | ⟨_ | r, elapsed⟩
  · exact ⟨0, by simp [performSearch, Answer.processed, Answer.latency, Answer.res, Answer.ok]⟩
  · exact ⟨0, by simp [performSearch, Answer.processed, Answer.latency, Answer.res, Answer.ok,
      ok_bind, pure, Except.pure]⟩
  · exact ⟨r.total, by simp [performSearch, Answer.processed, Answer.latency, Answer.res,
      Answer.ok, Reply.raw, asInt, ok_bind]⟩

theorem trial_ok (terms : List String) (hterms : terms ≠ []) (env : Env) (B : Nat)
    (sampleDone : Bool) (b idx : Nat) (c : Chans)
    (hlat : c.latencies.length < B) (hwg : c.wg ≠ 0)
    (hres : (!sampleDone && idx == 0) = true → c.resultsChan = []) :
    trial terms env B sampleDone b idx c =
      .ok { latencies := c.latencies ++ [(answerOf terms env b idx).latency]
            resultsChan := if (!sampleDone && idx == 0) = true
              then c.resultsChan ++ [(answerOf terms env b idx).res] else c.resultsChan
            wg := c.wg - 1
            out := c.out ++ trialEvents terms env b idx } := by
  obtain ⟨_, h1, h2, _⟩ := pick_ok terms hterms (env.draw b idx)
  obtain ⟨total, h3⟩ := performSearch_answer (termOf terms env b idx)
    (answerOf terms env b idx) c.out
  simp only [termOf, answerOf] at h3
  simp only [trial, h1, ok_bind, h2, h3, send, hlat, if_true, hwg, if_false]
  by_cases hc : (!sampleDone && idx == 0) = true
  · have := hres hc
    simp [hc, this, ok_bind, trialEvents, termOf, answerOf]
  · simp [hc, ok_bind, trialEvents, termOf, answerOf, pure, Except.pure]


theorem runTrials_ok (terms : List String) (hterms : terms ≠ []) (env : Env) (B : Nat)
    (sampleDone : Bool) (b : Nat) :
    ∀ (l : List Nat) (c : Chans), l.Nodup → c.latencies.length + l.length ≤ B →
      l.length ≤ c.wg → ((sampleDone = false ∧ 0 ∈ l) → c.resultsChan = []) →
      runTrials terms env B sampleDone b l c =
        .ok { latencies := c.latencies ++ l.map (fun i => (answerOf terms env b i).latency)
              resultsChan := c.resultsChan ++
                (if sampleDone = false ∧ 0 ∈ l then [(answerOf terms env b 0).res] else [])
              wg := c.wg - l.length
              out := c.out ++ (l.map (trialEvents terms env b)).flatten } := by
  intro l
  induction l with
  | nil => intro c _ _ _ _; simp [runTrials]
  | cons idx rest ih =>
    intro c hnd hlat hwg hres
    have hnd' := List.nodup_cons.mp hnd
    simp only [List.length_cons] at hlat hwg
    have ht := trial_ok terms hterms env B sampleDone b idx c (by omega) (by omega)
      (by
        intro h
        simp only [Bool.and_eq_true, Bool.not_eq_true', beq_iff_eq] at h
        exact hres ⟨h.1, by simp [h.2]⟩)
    simp only [runTrials, ht, ok_bind]
    rw [ih _ hnd'.2 (by simp; omega) (by simp; omega)
      (by
        rintro ⟨h1, h2⟩
        have hne : idx ≠ 0 := fun h => hnd'.1 (h ▸ h2)
        have : c.resultsChan = [] := hres ⟨h1, by simp [h2]⟩
        simp [hne, this])]
    congr 1
    have e1 : c.wg - 1 - rest.length = c.wg - (rest.length + 1) := by omega
    by_cases h0 : idx = 0
    · subst h0
      have hn : (0 : Nat) ∉ rest := hnd'.1
      cases sampleDone <;> simp [hn, e1]
    · have hb : (idx == 0) = false := by simpa using h0
      have hm : (0 ∈ idx :: rest) ↔ 0 ∈ rest := by
        simp [List.mem_cons, Ne.symm h0]
      simp [hb, hm, e1]


theorem joinBatch_ok (terms : List String) (hterms : terms ≠ []) (env : Env) (B : Nat)
    (sampleDone : Bool) (b : Nat) (out : List Event)
    (horder : (env.order b).Perm (List.range B)) :
    joinBatch terms env B sampleDone b out =
      .ok { latencies := (env.order b).map (fun i => (answerOf terms env b i).latency)
            resultsChan :=
              if sampleDone = false ∧ 0 < B then [(answerOf terms env b 0).res] else []
            wg := 0
            out := out ++ ((env.order b).map (trialEvents terms env b)).flatten } := by
  have hlen : (env.order b).length = B := by simpa using horder.length_eq
  have hnd : (env.order b).Nodup := horder.nodup_iff.mpr (List.nodup_range B)
  have hmem : (0 ∈ env.order b) ↔ 0 < B := by
    rw [horder.mem_iff, List.mem_range]
  have h := runTrials_ok terms hterms env B sampleDone b (env.order b)
    { latencies := [], resultsChan := [], wg := B, out := out } hnd
    (by simp [hlen]) (by simp [hlen]) (fun _ => rfl)
  simp only [joinBatch, h, ok_bind, hlen, Nat.sub_self, wgWait, if_true, List.nil_append, hmem]

theorem drain_eq (conv : Nat → Nat) (l : List Latency) (added : List Nat) :
    drain conv l added = ([], added ++ l.map (toDuration conv)) := by
  induction l generalizing added with
  | nil => simp [drain]
  | cons x xs ih => simp [drain, ih]

theorem dumpLoop_raw (es : List Entry) (out : List Event) :
    dumpLoop (es.map Entry.raw).flatten out =
      .ok (out ++ es.map (fun e => Event.entry e.key e.fields)) := by
  induction es generalizing out with
  | nil => simp [dumpLoop]
  | cons e es ih =>
    simp only [List.map_cons, List.flatten_cons, Entry.raw, List.cons_append, List.nil_append,
      dumpLoop, asString, asArr, ok_bind]
    show dumpLoop (List.map Entry.raw es).flatten (out ++ [Event.entry e.key e.fields]) = _
    rw [ih]
    simp

theorem dump_raw (r : Reply) (out : List Event) :
    dump r.raw out = .ok (out ++ replyDump r) := by
  simp [dump, Reply.raw, asInt, ok_bind, dumpLoop_raw, replyDump]

theorem res_eq_nil_or (a : Answer) :
    (a.res = [] ∧ a.dumpEvents = [] ∨ ∃ r e, a = .success (some r) e) := by
  rcases a with _ | ⟨_ | r, e⟩
  · left; simp [Answer.res, Answer.dumpEvents]
  · left; simp [Answer.res, Answer.dumpEvents]
  · right; exact ⟨r, e, rfl⟩

theorem batch_ok (terms : List String) (hterms : terms ≠ []) (env : Env) (B : Nat)
    (hB : 1 ≤ B) (b : Nat) (s : State) (horder : (env.order b).Perm (List.range B)) :
    batch terms env B b s =
      .ok { sampleDone := s.sampleDone || available terms env b
            added := s.added ++ (env.order b).map
              (fun i => toDuration env.conv (answerOf terms env b i).latency)
            out := s.out ++ ((env.order b).map (trialEvents terms env b)).flatten ++
              (if s.sampleDone = false ∧ available terms env b = true
                then (answerOf terms env b 0).dumpEvents else []) } := by
  have hj := joinBatch_ok terms hterms env B s.sampleDone b s.out horder
  have hB' : 0 < B := hB
  simp only [batch, hj, ok_bind, drain_eq, List.map_map, Function.comp_def]
  cases hs : s.sampleDone
  · simp only [hB', and_self, if_true, Bool.not_false, Bool.false_or, true_and]
    rcases res_eq_nil_or (answerOf terms env b 0) with ⟨h1, h2⟩ | ⟨r, e, h⟩
    · simp [h1, available]
    · have hr : (answerOf terms env b 0).res = r.raw := by rw [h]; rfl
      have hpos : r.raw.length > 0 := by simp [Reply.raw]
      have hav : available terms env b = true := by
        simp [available, hr, Reply.raw]
      have hr' : (Answer.success (some r) e).res = r.raw := rfl
      simp only [h, hr', hpos, if_true, dump_raw, ok_bind, hav, Answer.dumpEvents]
  · simp


theorem filter_isDump_trialEvents (terms : List String) (env : Env) (b : Nat) (l : List Nat) :
    ((l.map (trialEvents terms env b)).flatten).filter isDump = [] := by
  induction l with
  | nil => simp
  | cons i l ih =>
    simp only [List.map_cons, List.flatten_cons, List.filter_append, ih, List.append_nil]
    unfold trialEvents
    split <;> simp [isDump]

theorem filter_isQuery_trialEvents (terms : List String) (env : Env) (b : Nat) (l : List Nat) :
    (((l.map (trialEvents terms env b)).flatten).filter isQuery).length = l.length := by
  induction l with
  | nil => simp
  | cons i l ih =>
    simp only [List.map_cons, List.flatten_cons, List.filter_append, List.length_append, ih,
      List.length_cons]
    unfold trialEvents
    split <;> simp [isQuery] <;> omega

theorem filter_isDump_replyDump (r : Reply) : (replyDump r).filter isDump = replyDump r := by
  simp only [replyDump, List.filter_append]
  congr 1
  rw [List.filter_eq_self]
  intro e he
  obtain ⟨x, _, rfl⟩ := List.mem_map.mp he
  rfl

theorem filter_isQuery_replyDump (r : Reply) : (replyDump r).filter isQuery = [] := by
  simp only [replyDump, List.filter_append]
  have : (r.entries.map (fun e => Event.entry e.key e.fields)).filter isQuery = [] := by
    rw [List.filter_eq_nil_iff]
    intro e he
    obtain ⟨x, _, rfl⟩ := List.mem_map.mp he
    simp [isQuery]
  rw [this]
  simp [isQuery]

theorem filter_dumpEvents (a : Answer) :
    a.dumpEvents.filter isDump = a.dumpEvents ∧ a.dumpEvents.filter isQuery = [] := by
  rcases a with _ | ⟨_ | r, e⟩
  · simp [Answer.dumpEvents]
  · simp [Answer.dumpEvents]
  · exact ⟨filter_isDump_replyDump r, filter_isQuery_replyDump r⟩

theorem batches_ok (terms : List String) (hterms : terms ≠ []) (env : Env) (B : Nat)
    (hB : 1 ≤ B) (horder : ∀ b, (env.order b).Perm (List.range B)) :
    ∀ (k b0 : Nat) (s : State), ∃ s', batches terms env B k b0 s = .ok s' ∧
      s'.sampleDone = (s.sampleDone || (List.range' b0 k).any (available terms env)) ∧
      s'.added = s.added ++ ((List.range' b0 k).map
        (fun b => (env.order b).map
          (fun i => toDuration env.conv (answerOf terms env b i).latency))).flatten ∧
      s'.out.filter isDump = s.out.filter isDump ++
        (if s.sampleDone = true then [] else firstDump terms env b0 k) ∧
      (s'.out.filter isQuery).length = (s.out.filter isQuery).length + k * B := by
  intro k
  induction k with
  | zero =>
    intro b0 s
    refine ⟨s, rfl, by simp, by simp, ?_, by simp⟩
    cases s.sampleDone <;> simp [firstDump]
  | succ k ih =>
    intro b0 s
    have hb := batch_ok terms hterms env B hB b0 s (horder b0)
    obtain ⟨s', h1, h2, h3, h4, h5⟩ := ih (b0 + 1)
      { sampleDone := s.sampleDone || available terms env b0
        added := s.added ++ (env.order b0).map
          (fun i => toDuration env.conv (answerOf terms env b0 i).latency)
        out := s.out ++ ((env.order b0).map (trialEvents terms env b0)).flatten ++
          (if s.sampleDone = false ∧ available terms env b0 = true
            then (answerOf terms env b0 0).dumpEvents else []) }
    refine ⟨s', ?_, ?_, ?_, ?_, ?_⟩
    · simp only [batches, hb, ok_bind, h1]
    · rw [h2]; simp [List.range'_succ, Bool.or_assoc]
    · rw [h3]; simp [List.range'_succ]
    · rw [h4]
      simp only [List.filter_append, filter_isDump_trialEvents, List.append_nil]
      cases hs : s.sampleDone
      · cases ha : available terms env b0
        · simp [firstDump, List.range'_succ, ha]
        · simp [firstDump, List.range'_succ, ha, (filter_dumpEvents _).1]
      · simp
    · rw [h5]
      simp only [List.filter_append, List.length_append, filter_isQuery_trialEvents,
        (horder b0).length_eq, List.length_range]
      have : ((if s.sampleDone = false ∧ available terms env b0 = true
            then (answerOf terms env b0 0).dumpEvents else []).filter isQuery) = [] := by
        split
        · exact (filter_dumpEvents _).2
        · rfl
      rw [this]
      simp only [List.length_nil]
      ring


theorem find_range' (p : Nat → Bool) :
    ∀ (k start b : Nat), (List.range' start k).find? p = some b →
      start ≤ b ∧ b < start + k ∧ p b = true ∧ ∀ b', start ≤ b' → b' < b → p b' = false := by
  intro k
  induction k with
  | zero => intro start b h; simp at h
  | succ k ih =>
    intro start b h
    rw [List.range'_succ, List.find?_cons] at h
    cases hp : p start
    · rw [hp] at h
      obtain ⟨h1, h2, h3, h4⟩ := ih (start + 1) b h
      refine ⟨by omega, by omega, h3, ?_⟩
      intro b' hb' hlt
      rcases Nat.eq_or_lt_of_le hb' with rfl | hgt
      · exact hp
      · exact h4 b' hgt hlt
    · rw [hp] at h
      simp only [Option.some.injEq] at h
      subst h
      exact ⟨le_refl _, by omega, hp, fun b' h1 h2 => absurd h1 (by omega)⟩

theorem mem_replyDump (r : Reply) :
    Event.sampleHeader ∈ replyDump r ∧ (replyDump r).count Event.sampleHeader = 1 := by
  have h0 : (r.entries.map (fun e => Event.entry e.key e.fields)).count Event.sampleHeader = 0 := by
    rw [List.count_eq_zero]
    intro h
    obtain ⟨x, _, hx⟩ := List.mem_map.mp h
    cases hx
  constructor
  · simp [replyDump]
  · rw [replyDump, List.count_append, h0]
    simp [List.count_cons]

theorem firstDump_cases (terms : List String) (env : Env) (k : Nat) :
    (firstDump terms env 0 k = [] ∧ ∀ b, b < k → available terms env b = false) ∨
    (∃ b0 r e, b0 < k ∧ available terms env b0 = true ∧
      (∀ b, b < b0 → available terms env b = false) ∧
      answerOf terms env b0 0 = .success (some r) e ∧ firstDump terms env 0 k = replyDump r) := by
  unfold firstDump
  cases hf : (List.range' 0 k).find? (available terms env) with
  | none =>
    left
    refine ⟨rfl, ?_⟩
    intro b hb
    have := List.find?_eq_none.mp hf b (by simp [List.mem_range']; omega)
    simpa using this
  | some b0 =>
    right
    obtain ⟨_, h2, h3, h4⟩ := find_range' _ k 0 b0 hf
    rcases res_eq_nil_or (answerOf terms env b0 0) with ⟨h, _⟩ | ⟨r, e, h⟩
    · simp [available, h] at h3
    · exact ⟨b0, r, e, by omega, h3, fun b hb => h4 b (Nat.zero_le _) hb, h, by simp [h, Answer.dumpEvents]⟩


/-! ### test.go: properties of a batch and of a run -/

/-- C1 (counterexample). In a batch of one trial whose query fails, the batch hands one
sample, of value 0, to the aggregator although none of its trials succeeded. -/
theorem failed_trial_is_recorded :
    ∃ s, batch ["cat"] envAllFail 1 0 initState = .ok s ∧ s.added = [0] ∧
      successes ["cat"] envAllFail 1 0 = 0 ∧
      s.added.length - initState.added.length ≠ successes ["cat"] envAllFail 1 0 :=
  ⟨_, rfl, rfl, rfl, by decide⟩

/-- C1 (amended). Every trial of a batch, failed or not, contributes exactly one sample:
a batch of `B` trials hands the aggregator `B` samples, in completion order, the sample
of a failed trial being 0 (that of a successful trial is what the `float64` conversion
makes of its latency, whatever that conversion returns); a batch in which every trial
fails adds `B` samples of value 0. -/
theorem batch_adds_one_sample_per_trial (terms : List String) (hterms : terms ≠ [])
    (env : Env) (B : Nat) (hB : 1 ≤ B) (b : Nat) (s : State)
    (horder : (env.order b).Perm (List.range B)) :
    ∃ s', batch terms env B b s = .ok s' ∧
      s'.added = s.added ++ (env.order b).map (fun i =>
        match answerOf terms env b i with
        | .failure => 0
        | .success _ elapsed => env.conv elapsed) ∧
      s'.added.length = s.added.length + B ∧
      ((∀ i, i < B → answerOf terms env b i = .failure) →
        s'.added = s.added ++ List.replicate B 0) := by
  refine ⟨_, batch_ok terms hterms env B hB b s horder, ?_, ?_, ?_⟩
  · show s.added ++ _ = _
    congr 1
    apply List.map_congr_left
    intro i _
    cases answerOf terms env b i <;> rfl
  · simp [horder.length_eq]
  · intro hfail
    show s.added ++ _ = _
    congr 1
    rw [List.eq_replicate_iff]
    refine ⟨by simp [horder.length_eq], ?_⟩
    intro x hx
    obtain ⟨i, hi, rfl⟩ := List.mem_map.mp hx
    rw [hfail i (List.mem_range.mp (horder.mem_iff.mp hi))]
    rfl

theorem batch_adds_one_sample_per_trial_witness :
    ["cat", "dog"] ≠ [] ∧ 1 ≤ 2 ∧ (envTwo.order 0).Perm (List.range 2) ∧
    ∃ s', batch ["cat", "dog"] envTwo 2 0 initState = .ok s' ∧
      s'.added = initState.added ++ (envTwo.order 0).map (fun i =>
        match answerOf ["cat", "dog"] envTwo 0 i with
        | .failure => 0
        | .success _ elapsed => envTwo.conv elapsed) ∧
      s'.added.length = initState.added.length + 2 ∧
      ((∀ i, i < 2 → answerOf ["cat", "dog"] envTwo 0 i = .failure) →
        s'.added = initState.added ++ List.replicate 2 0) :=
  ⟨by decide, by decide, by decide,
    batch_adds_one_sample_per_trial ["cat", "dog"] (by decide) envTwo 2 (by decide) 0 initState
      (by decide)⟩

/-- C2. For every batch size `B` (in particular `B ≥ 1`), every outcome of the trials and
every order in which they finish: after `n ≤ B` trials have finished the latency channel
holds `n` values and the wait group counts `B - n`, so no send blocks, and while `n < B`
the call `wg.Wait()` blocks, so the join cannot pass before all `B` trials are done; the
join does pass, with `B` queries issued, `B` values in the channel and at most one in the
sample channel; draining then takes exactly these `B` values and leaves the channel
empty. -/
theorem batch_join_exact (terms : List String) (hterms : terms ≠ []) (env : Env) (B : Nat)
    (sampleDone : Bool) (b : Nat) (out : List Event)
    (horder : (env.order b).Perm (List.range B)) :
    (∀ n, n ≤ B → ∃ c, runTrials terms env B sampleDone b ((env.order b).take n)
        { latencies := [], resultsChan := [], wg := B, out := out } = .ok c ∧
        c.latencies.length = n ∧ c.wg = B - n ∧ c.latencies.length ≤ B ∧
        (n < B → wgWait c = .error .blocked)) ∧
    ∃ c, joinBatch terms env B sampleDone b out = .ok c ∧
      c.wg = 0 ∧ c.latencies.length = B ∧ c.resultsChan.length ≤ 1 ∧
      (c.out.filter isQuery).length = (out.filter isQuery).length + B ∧
      ∀ added, drain env.conv c.latencies added =
          ([], added ++ c.latencies.map (toDuration env.conv)) ∧
        (drain env.conv c.latencies added).2.length = added.length + B := by
  have hlen : (env.order b).length = B := by simpa using horder.length_eq
  have hnd : (env.order b).Nodup := horder.nodup_iff.mpr (List.nodup_range B)
  constructor
  · intro n hn
    have hl : ((env.order b).take n).length = n := by simp [hlen, hn]
    refine ⟨_, runTrials_ok terms hterms env B sampleDone b ((env.order b).take n)
      { latencies := [], resultsChan := [], wg := B, out := out }
      (hnd.sublist (List.take_sublist _ _)) (by simp [hlen]) (by simp [hlen])
      (fun _ => rfl), ?_, ?_, ?_, ?_⟩
    · simp [hlen, hn]
    · simp [hlen, hn]
    · simp [hlen]
    · intro hlt
      have hne : B - ((env.order b).take n).length ≠ 0 := by rw [hl]; omega
      simp only [wgWait, hne, if_false]
  · refine ⟨_, joinBatch_ok terms hterms env B sampleDone b out horder, rfl, ?_, ?_, ?_, ?_⟩
    · simp [hlen]
    · show (if sampleDone = false ∧ 0 < B then [(answerOf terms env b 0).res] else []).length ≤ 1
      split <;> simp
    · show ((out ++ _).filter isQuery).length = _
      rw [List.filter_append, List.length_append, filter_isQuery_trialEvents, hlen]
    · intro added
      simp [drain_eq, hlen]

theorem batch_join_exact_witness :
    ["cat", "dog"] ≠ [] ∧ (envTwo.order 3).Perm (List.range 2) ∧
    ((∀ n, n ≤ 2 → ∃ c, runTrials ["cat", "dog"] envTwo 2 false 3 ((envTwo.order 3).take n)
        { latencies := [], resultsChan := [], wg := 2, out := [] } = .ok c ∧
        c.latencies.length = n ∧ c.wg = 2 - n ∧ c.latencies.length ≤ 2 ∧
        (n < 2 → wgWait c = .error .blocked)) ∧
    ∃ c, joinBatch ["cat", "dog"] envTwo 2 false 3 [] = .ok c ∧
      c.wg = 0 ∧ c.latencies.length = 2 ∧ c.resultsChan.length ≤ 1 ∧
      (c.out.filter isQuery).length = (([] : List Event).filter isQuery).length + 2 ∧
      ∀ added, drain envTwo.conv c.latencies added =
          ([], added ++ c.latencies.map (toDuration envTwo.conv)) ∧
        (drain envTwo.conv c.latencies added).2.length = added.length + 2) :=
  ⟨by decide, by decide,
    batch_join_exact ["cat", "dog"] (by decide) envTwo 2 false 3 [] (by decide)⟩

theorem runLoop_some_batches (terms : List String) (env : Env) (B : Nat) (endTime : Int)
    (clock : Nat → Int) :
    ∀ (fuel b : Nat) (s s' : State),
      runLoop terms env B endTime clock fuel b s = .ok (some s') →
      ∃ k, k < fuel ∧ batches terms env B k b s = .ok s' := by
  intro fuel
  induction fuel with
  | zero => intro b s s' h; simp [runLoop] at h
  | succ fuel ih =>
    intro b s s' h
    unfold runLoop at h
    split at h
    · cases hb : batch terms env B b s with
      | error e => rw [hb] at h; cases h
      | ok s1 =>
        rw [hb, ok_bind] at h
        obtain ⟨k, hk, hk'⟩ := ih (b + 1) s1 s' h
        exact ⟨k + 1, by omega, by simp only [batches, hb, ok_bind, hk']⟩
    · injection h with h
      injection h with h
      exact ⟨0, by omega, by rw [← h]; rfl⟩

/-- The batch loop returns: if the clock shows the deadline reached at some test `b + n`,
fuel `n + 1` is enough. -/
theorem runLoop_returns (terms : List String) (hterms : terms ≠ []) (env : Env) (B : Nat)
    (hB : 1 ≤ B) (horder : ∀ b, (env.order b).Perm (List.range B)) (endTime : Int)
    (clock : Nat → Int) :
    ∀ (n b : Nat) (s : State), ¬ clock (b + n) < endTime →
      ∃ s', runLoop terms env B endTime clock (n + 1) b s = .ok (some s') := by
  intro n
  induction n with
  | zero =>
    intro b s h
    exact ⟨s, by simp only [runLoop]; rw [if_neg (by simpa using h)]⟩
  | succ n ih =>
    intro b s h
    by_cases hc : clock b < endTime
    · obtain ⟨s', hs'⟩ := ih (b + 1) _ (by rw [show b + 1 + n = b + (n + 1) by omega]; exact h)
      refine ⟨s', ?_⟩
      rw [runLoop, if_pos hc, batch_ok terms hterms env B hB b s (horder b), ok_bind]
      exact hs'
    · exact ⟨s, by rw [runLoop, if_neg hc]⟩

theorem count_header_eq (l : List Event) :
    l.count Event.sampleHeader = (l.filter isDump).count Event.sampleHeader :=
  (List.count_filter (p := isDump) (a := Event.sampleHeader) (l := l) rfl).symm

theorem count_header_trialEvents (terms : List String) (env : Env) (b : Nat) (l : List Nat) :
    ((l.map (trialEvents terms env b)).flatten).count Event.sampleHeader = 0 := by
  rw [count_header_eq, filter_isDump_trialEvents]; rfl

theorem any_available_iff (terms : List String) (env : Env) (k : Nat) :
    (List.range' 0 k).any (available terms env) = true ↔
      ∃ b, b < k ∧ available terms env b = true := by
  simp [List.any_eq_true, List.mem_range']

/-- C4. The flag `sampleDone` steps as follows: a batch prints the dump header exactly when
the flag is not yet set and its first-dispatched trial returned a non-empty result set, and
then sets the flag; from a state whose flag is set no batch prints the header and the flag
stays set. Hence after any number `k` of batches of a run the header has been printed once
if some batch among them had a non-empty diagnostic result set, and not at all otherwise;
a run of the batch loop that has left the loop has printed it at most once. -/
theorem sample_dump_printed_once (terms : List String) (hterms : terms ≠ []) (env : Env)
    (B : Nat) (hB : 1 ≤ B) (horder : ∀ b, (env.order b).Perm (List.range B)) :
    (∀ b s, ∃ s', batch terms env B b s = .ok s' ∧
      s'.sampleDone = (s.sampleDone || available terms env b) ∧
      s'.out.count Event.sampleHeader = s.out.count Event.sampleHeader +
        (if s.sampleDone = false ∧ available terms env b = true then 1 else 0)) ∧
    (∀ b s, s.sampleDone = true → ∃ s', batch terms env B b s = .ok s' ∧
      s'.sampleDone = true ∧
      s'.out.count Event.sampleHeader = s.out.count Event.sampleHeader) ∧
    (∀ k, ∃ s, batches terms env B k 0 initState = .ok s ∧
      (s.sampleDone = true ↔ ∃ b, b < k ∧ available terms env b = true) ∧
      ((∃ b, b < k ∧ available terms env b = true) → s.out.count Event.sampleHeader = 1) ∧
      ((∀ b, b < k → available terms env b = false) → s.out.count Event.sampleHeader = 0)) ∧
    (∀ (endTime : Int) (clock : Nat → Int) (fuel : Nat) (s : State),
      runLoop terms env B endTime clock fuel 0 initState = .ok (some s) →
      s.out.count Event.sampleHeader ≤ 1) := by
  have step : ∀ b s, ∃ s', batch terms env B b s = .ok s' ∧
      s'.sampleDone = (s.sampleDone || available terms env b) ∧
      s'.out.count Event.sampleHeader = s.out.count Event.sampleHeader +
        (if s.sampleDone = false ∧ available terms env b = true then 1 else 0) := by
    intro b s
    refine ⟨_, batch_ok terms hterms env B hB b s (horder b), rfl, ?_⟩
    show (s.out ++ _ ++ _).count Event.sampleHeader = _
    rw [List.count_append, List.count_append, count_header_trialEvents, Nat.add_zero]
    congr 1
    split
    · rename_i h
      rcases res_eq_nil_or (answerOf terms env b 0) with ⟨h1, _⟩ | ⟨r, e, hr⟩
      · simp [available, h1] at h
      · rw [hr]; exact (mem_replyDump r).2
    · rfl
  have run : ∀ k, ∃ s, batches terms env B k 0 initState = .ok s ∧
      (s.sampleDone = true ↔ ∃ b, b < k ∧ available terms env b = true) ∧
      ((∃ b, b < k ∧ available terms env b = true) → s.out.count Event.sampleHeader = 1) ∧
      ((∀ b, b < k → available terms env b = false) →
        s.out.count Event.sampleHeader = 0) := ?_
  · refine ⟨step, ?_, run, ?_⟩
    · intro b s hs
      obtain ⟨s', h1, h2, h3⟩ := step b s
      exact ⟨s', h1, by simp [h2, hs], by simp [h3, hs]⟩
    · intro endTime clock fuel s h
      obtain ⟨k, _, hk⟩ := runLoop_some_batches terms env B endTime clock fuel 0 initState s h
      obtain ⟨s2, h1, _, h3, h4⟩ := run k
      rw [hk] at h1
      injection h1 with h1
      subst h1
      by_cases hex : ∃ b, b < k ∧ available terms env b = true
      · rw [h3 hex]
      · rw [h4 (fun b hb => by
          cases hav : available terms env b
          · rfl
          · exact absurd ⟨b, hb, hav⟩ hex)]
        omega
  · intro k
    obtain ⟨s, h1, h2, _, h4, _⟩ := batches_ok terms hterms env B hB horder k 0 initState
    have hc : s.out.count Event.sampleHeader = (firstDump terms env 0 k).count Event.sampleHeader := by
      rw [count_header_eq, h4]; rfl
    refine ⟨s, h1, ?_, ?_, ?_⟩
    · rw [h2]
      simp only [initState, Bool.false_or]
      exact any_available_iff terms env k
    · rintro ⟨b, hb, hav⟩
      rw [hc]
      rcases firstDump_cases terms env k with ⟨_, hn⟩ | ⟨b0, r, e, _, _, _, _, hd⟩
      · rw [hn b hb] at hav; cases hav
      · rw [hd]; exact (mem_replyDump r).2
    · intro hall
      rw [hc]
      rcases firstDump_cases terms env k with ⟨h0, _⟩ | ⟨b0, r, e, hb0, hav, _, _, _⟩
      · rw [h0]; rfl
      · rw [hall b0 hb0] at hav; cases hav

theorem sample_dump_printed_once_witness :
    ["cat"] ≠ [] ∧ 1 ≤ 1 ∧ (∀ b, (envFailFirst.order b).Perm (List.range 1)) ∧
    ((∀ b s, ∃ s', batch ["cat"] envFailFirst 1 b s = .ok s' ∧
      s'.sampleDone = (s.sampleDone || available ["cat"] envFailFirst b) ∧
      s'.out.count Event.sampleHeader = s.out.count Event.sampleHeader +
        (if s.sampleDone = false ∧ available ["cat"] envFailFirst b = true then 1 else 0)) ∧
    (∀ b s, s.sampleDone = true → ∃ s', batch ["cat"] envFailFirst 1 b s = .ok s' ∧
      s'.sampleDone = true ∧
      s'.out.count Event.sampleHeader = s.out.count Event.sampleHeader) ∧
    (∀ k, ∃ s, batches ["cat"] envFailFirst 1 k 0 initState = .ok s ∧
      (s.sampleDone = true ↔ ∃ b, b < k ∧ available ["cat"] envFailFirst b = true) ∧
      ((∃ b, b < k ∧ available ["cat"] envFailFirst b = true) →
        s.out.count Event.sampleHeader = 1) ∧
      ((∀ b, b < k → available ["cat"] envFailFirst b = false) →
        s.out.count Event.sampleHeader = 0)) ∧
    (∀ (endTime : Int) (clock : Nat → Int) (fuel : Nat) (s : State),
      runLoop ["cat"] envFailFirst 1 endTime clock fuel 0 initState = .ok (some s) →
      s.out.count Event.sampleHeader ≤ 1)) :=
  ⟨by decide, by decide, fun _ => List.Perm.refl [0],
    sample_dump_printed_once ["cat"] (by decide) envFailFirst 1 (by decide)
      (fun _ => List.Perm.refl [0])⟩

/-- C5 (counterexample). With one trial per batch, the query of batch 0 failing and the
query of batch 1 succeeding, the run prints the dump, and what it dumps is the result set
of batch 1, not that of the first batch (which is empty). -/
theorem dump_not_from_first_batch :
    ∃ s, batches ["cat"] envFailFirst 1 2 0 initState = .ok s ∧
      Event.sampleHeader ∈ s.out ∧
      (answerOf ["cat"] envFailFirst 0 0).res = [] ∧
      s.out.filter isDump = (answerOf ["cat"] envFailFirst 1 0).dumpEvents ∧
      s.out.filter isDump ≠ (answerOf ["cat"] envFailFirst 0 0).dumpEvents :=
  ⟨_, rfl, by decide, rfl, rfl, by decide⟩

/-- C5 (amended). In every run in which the sample dump is printed, the dumped result set
is the raw result set returned by the first-dispatched trial (dispatch index 0) of the
earliest batch of the run whose first-dispatched trial returned a non-empty result set,
whatever the order in which the trials of a batch complete. -/
theorem dump_is_first_nonempty_sample (terms : List String) (hterms : terms ≠ [])
    (env : Env) (B : Nat) (hB : 1 ≤ B) (horder : ∀ b, (env.order b).Perm (List.range B))
    (k : Nat) :
    ∃ s, batches terms env B k 0 initState = .ok s ∧
      (Event.sampleHeader ∈ s.out →
        ∃ b0 r e, b0 < k ∧ answerOf terms env b0 0 = .success (some r) e ∧
          (∀ b, b < b0 → (answerOf terms env b 0).res = []) ∧
          s.out.filter isDump = replyDump r) := by
  obtain ⟨s, h1, _, _, h4, _⟩ := batches_ok terms hterms env B hB horder k 0 initState
  have h4' : s.out.filter isDump = firstDump terms env 0 k := by
    rw [h4]; rfl
  refine ⟨s, h1, ?_⟩
  intro hmem
  have hpos : 0 < s.out.count Event.sampleHeader := List.count_pos_iff.mpr hmem
  rw [count_header_eq, h4'] at hpos
  rcases firstDump_cases terms env k with ⟨h0, _⟩ | ⟨b0, r, e, hb0, _, hfirst, hr, hd⟩
  · rw [h0] at hpos; simp at hpos
  · refine ⟨b0, r, e, hb0, hr, ?_, by rw [h4', hd]⟩
    intro b hb
    have := hfirst b hb
    simpa [available] using this

theorem dump_is_first_nonempty_sample_witness :
    ["cat"] ≠ [] ∧ 1 ≤ 1 ∧ (∀ b, (envFailFirst.order b).Perm (List.range 1)) ∧
    ∃ s, batches ["cat"] envFailFirst 1 3 0 initState = .ok s ∧
      (Event.sampleHeader ∈ s.out →
        ∃ b0 r e, b0 < 3 ∧ answerOf ["cat"] envFailFirst b0 0 = .success (some r) e ∧
          (∀ b, b < b0 → (answerOf ["cat"] envFailFirst b 0).res = []) ∧
          s.out.filter isDump = replyDump r) :=
  ⟨by decide, by decide, fun _ => List.Perm.refl [0],
    dump_is_first_nonempty_sample ["cat"] (by decide) envFailFirst 1 (by decide)
      (fun _ => List.Perm.refl [0]) 3⟩


/-- C6. With a window of duration 0 and a clock that does not go backwards, the batch loop
tests the deadline before any dispatch and leaves at once: no batch runs, no query is
issued, no sample is recorded, and `main` goes on to the final report, whose count is 0. -/
theorem zero_window_runs_no_batch (B : Nat) (overflow : List Nat → Nat → List Nat)
    (setup : Setup) (env : Env) (clock : Nat → Int) (fuel : Nat)
    (hopen : setup.openOk = true) (hscan : setup.scanOk = true) (hterms : setup.lines ≠ [])
    (hping : setup.pingOk = true) (hclock : setup.startTime ≤ clock 0) :
    runLoop setup.lines env B (setup.startTime + 0) clock (fuel + 1) 0 initState =
      .ok (some initState) ∧
    initState.added = [] ∧ initState.out.filter isQuery = [] ∧
    mainWith B 0 overflow setup env clock (fuel + 1) =
      .ok (some [.ping, .report { count := 0, max := 0, min := 0, p95 := 0, p99 := 0, p999 := 0 }]) ∧
    (Aggregator.snapshot []).count = 0 := by
  have hnot : ¬ clock 0 < setup.startTime + 0 := by omega
  have hloop : runLoop setup.lines env B (setup.startTime + 0) clock (fuel + 1) 0 initState =
      .ok (some initState) := by
    simp only [runLoop, hnot, if_false]
  have hlen : setup.lines.length ≠ 0 := by
    intro h; exact hterms (List.length_eq_zero.mp h)
  refine ⟨hloop, rfl, rfl, ?_, rfl⟩
  simp only [mainWith, hopen, hscan, hping, Bool.not_true, hlen, if_false, hloop, ok_bind]
  rfl

theorem zero_window_runs_no_batch_witness :
    setupOk.openOk = true ∧ setupOk.scanOk = true ∧ setupOk.lines ≠ [] ∧
    setupOk.pingOk = true ∧ setupOk.startTime ≤ (fun b => 50 + (b : Int)) 0 ∧
    (runLoop setupOk.lines envTwo 2 (setupOk.startTime + 0) (fun b => 50 + (b : Int)) (4 + 1) 0
        initState = .ok (some initState) ∧
    initState.added = [] ∧ initState.out.filter isQuery = [] ∧
    mainWith 2 0 (fun l _ => l) setupOk envTwo (fun b => 50 + (b : Int)) (4 + 1) =
      .ok (some [.ping, .report { count := 0, max := 0, min := 0, p95 := 0, p99 := 0, p999 := 0 }]) ∧
    (Aggregator.snapshot []).count = 0) :=
  ⟨rfl, rfl, by decide, rfl, by decide,
    zero_window_runs_no_batch 2 (fun l _ => l) setupOk envTwo (fun b => 50 + (b : Int)) 4
      rfl rfl (by decide) rfl (by decide)⟩

theorem query_mem_trialEvents (terms : List String) (hterms : terms ≠ []) (env : Env)
    (b : Nat) (l : List Nat) (t : String)
    (h : Event.query t ∈ (l.map (trialEvents terms env b)).flatten) : t ∈ terms := by
  obtain ⟨evs, hevs, ht⟩ := List.mem_flatten.mp h
  obtain ⟨i, _, rfl⟩ := List.mem_map.mp hevs
  unfold trialEvents at ht
  rcases List.mem_cons.mp ht with heq | hrest
  · injection heq with heq
    rw [heq]
    exact (pick_ok terms hterms (env.draw b i)).2.2.2
  · split at hrest <;> simp at hrest

theorem query_not_mem_dumpEvents (a : Answer) (t : String) : Event.query t ∉ a.dumpEvents := by
  intro h
  have : Event.query t ∈ a.dumpEvents.filter isQuery := List.mem_filter.mpr ⟨h, rfl⟩
  rw [(filter_dumpEvents a).2] at this
  cases this

theorem batches_queries (terms : List String) (hterms : terms ≠ []) (env : Env) (B : Nat)
    (hB : 1 ≤ B) (horder : ∀ b, (env.order b).Perm (List.range B)) :
    ∀ (k b0 : Nat) (s s' : State), batches terms env B k b0 s = .ok s' →
      ∀ t, Event.query t ∈ s'.out → Event.query t ∈ s.out ∨ t ∈ terms := by
  intro k
  induction k with
  | zero =>
    intro b0 s s' h t ht
    simp only [batches] at h
    injection h with h
    subst h
    exact Or.inl ht
  | succ k ih =>
    intro b0 s s' h t ht
    simp only [batches, batch_ok terms hterms env B hB b0 s (horder b0), ok_bind] at h
    rcases ih (b0 + 1) _ s' h t ht with hin | hin
    · rcases List.mem_append.mp hin with h1 | h2
      · rcases List.mem_append.mp h1 with h3 | h4
        · exact Or.inl h3
        · exact Or.inr (query_mem_trialEvents terms hterms env b0 _ t h4)
      · split at h2
        · exact absurd h2 (query_not_mem_dumpEvents _ t)
        · cases h2
    · exact Or.inr hin

/-- C7. An empty term list stops `main` at load time: the run ends without a ping and
without any query (on a readable file its only output is "No terms found in file"), so
trials are dispatched only over a non-empty term list. Over a non-empty term list the
selection in the goroutine never fails: for every raw random draw the trial computes the
index `k = draw % len(terms) < len(terms)`, `terms[k]` is in bounds, and the trial goes on
to query the collaborator with that term, a member of the vocabulary; hence after any
number `k` of batches all `k * B` trials have issued their query, each with a term of the
vocabulary, and every query of a run of `main` carries a line of the file. -/
theorem term_selection_never_fails :
    (∀ (B : Nat) (duration : Int) (overflow : List Nat → Nat → List Nat) (setup : Setup)
        (env : Env) (clock : Nat → Int) (fuel : Nat), setup.lines = [] →
      ∃ evs, mainWith B duration overflow setup env clock fuel = .ok (some evs) ∧
        Event.ping ∉ evs ∧ (∀ t, Event.query t ∉ evs) ∧
        (setup.openOk = true → setup.scanOk = true → evs = [.noTerms])) ∧
    (∀ (terms : List String) (env : Env) (B : Nat) (sampleDone : Bool) (b idx : Nat)
        (c : Chans), terms ≠ [] → c.latencies.length < B → c.wg ≠ 0 →
        ((!sampleDone && idx == 0) = true → c.resultsChan = []) →
      ∃ k t c', k = env.draw b idx % terms.length ∧ k < terms.length ∧
        Intn terms.length (env.draw b idx) = .ok k ∧ terms[k]? = some t ∧ t ∈ terms ∧
        trial terms env B sampleDone b idx c = .ok c' ∧
        c'.out = c.out ++
          (Event.query t :: (if (env.collab b idx t).ok then [] else [.searchError]))) ∧
    (∀ (terms : List String) (env : Env) (B : Nat), terms ≠ [] → 1 ≤ B →
        (∀ b, (env.order b).Perm (List.range B)) →
      (∀ k, ∃ s, batches terms env B k 0 initState = .ok s ∧
        (s.out.filter isQuery).length = k * B ∧
        ∀ t, Event.query t ∈ s.out → t ∈ terms) ∧
      (∀ (duration : Int) (overflow : List Nat → Nat → List Nat) (setup : Setup)
          (clock : Nat → Int) (fuel : Nat) (evs : List Event), setup.lines = terms →
        mainWith B duration overflow setup env clock fuel = .ok (some evs) →
        ∀ t, Event.query t ∈ evs → t ∈ terms)) := by
  refine ⟨?_, ?_, ?_⟩
  · intro B duration overflow setup env clock fuel hl
    cases ho : setup.openOk
    · exact ⟨[.openError], by simp [mainWith, ho], by simp, by simp, by simp⟩
    · cases hs : setup.scanOk
      · exact ⟨[.readError], by simp [mainWith, ho, hs], by simp, by simp, by simp⟩
      · exact ⟨[.noTerms], by simp [mainWith, ho, hs, hl], by simp, by simp, by simp⟩
  · intro terms env B sampleDone b idx c hterms hlat hwg hres
    obtain ⟨h1, h2, h3, h4⟩ := pick_ok terms hterms (env.draw b idx)
    refine ⟨_, _, _, rfl, h1, h2, ?_, h4,
      trial_ok terms hterms env B sampleDone b idx c hlat hwg hres, rfl⟩
    simp [List.getD, List.getElem?_eq_getElem h1]
  · intro terms env B hterms hB horder
    have hrun : ∀ k, ∃ s, batches terms env B k 0 initState = .ok s ∧
        (s.out.filter isQuery).length = k * B ∧
        ∀ t, Event.query t ∈ s.out → t ∈ terms := by
      intro k
      obtain ⟨s, h1, _, _, _, h5⟩ := batches_ok terms hterms env B hB horder k 0 initState
      refine ⟨s, h1, by simpa [initState, isQuery] using h5, ?_⟩
      intro t ht
      rcases batches_queries terms hterms env B hB horder k 0 initState s h1 t ht with h | h
      · simp [initState] at h
      · exact h
    refine ⟨hrun, ?_⟩
    intro duration overflow setup clock fuel evs hlines hmain t ht
    subst hlines
    have hlen : setup.lines.length ≠ 0 := fun h => hterms (List.length_eq_zero.mp h)
    unfold mainWith at hmain
    cases ho : setup.openOk
    · simp [ho] at hmain; subst hmain; simp at ht
    · cases hs : setup.scanOk
      · simp [ho, hs] at hmain; subst hmain; simp at ht
      · cases hp : setup.pingOk
        · simp [ho, hs, hp, hlen] at hmain; subst hmain; simp at ht
        · simp only [ho, hs, hp, Bool.not_true, Bool.false_eq_true, if_false, hlen] at hmain
          cases hr : runLoop setup.lines env B (setup.startTime + duration) clock fuel 0
              initState with
          | error e => rw [hr] at hmain; cases hmain
          | ok r =>
            rw [hr, ok_bind] at hmain
            cases r with
            | none => simp at hmain
            | some s =>
              simp only [Except.ok.injEq, Option.some.injEq] at hmain
              subst hmain
              obtain ⟨k, _, hk⟩ := runLoop_some_batches setup.lines env B _ clock fuel 0
                initState s hr
              obtain ⟨s2, h1, _, hq⟩ := hrun k
              rw [hk] at h1
              injection h1 with h1
              subst h1
              rcases List.mem_append.mp ht with h | h
              · exact hq t h
              · simp at h

theorem term_selection_never_fails_witness :
    (∃ evs, mainWith 1 fiveMinutes (fun l _ => l)
        { openOk := true, lines := [], scanOk := true, pingOk := true, startTime := 0 }
        envAllFail (fun _ => 0) 3 = .ok (some evs) ∧
      Event.ping ∉ evs ∧ (∀ t, Event.query t ∉ evs) ∧
      ((true = true) → (true = true) → evs = [.noTerms])) ∧
    (["cat", "dog"] ≠ [] ∧
      ∃ k t c', k = envTwo.draw 4 1 % ["cat", "dog"].length ∧ k < ["cat", "dog"].length ∧
        Intn ["cat", "dog"].length (envTwo.draw 4 1) = .ok k ∧
        ["cat", "dog"][k]? = some t ∧ t ∈ ["cat", "dog"] ∧
        trial ["cat", "dog"] envTwo 2 false 4 1
          { latencies := [], resultsChan := [], wg := 2, out := [] } = .ok c' ∧
        c'.out = [] ++
          (Event.query t :: (if (envTwo.collab 4 1 t).ok then [] else [.searchError]))) ∧
    (["cat", "dog"] ≠ [] ∧ 1 ≤ 2 ∧ (∀ b, (envTwo.order b).Perm (List.range 2)) ∧
      ∀ k, ∃ s, batches ["cat", "dog"] envTwo 2 k 0 initState = .ok s ∧
        (s.out.filter isQuery).length = k * 2 ∧
        ∀ t, Event.query t ∈ s.out → t ∈ ["cat", "dog"]) :=
  ⟨term_selection_never_fails.1 1 fiveMinutes (fun l _ => l)
      { openOk := true, lines := [], scanOk := true, pingOk := true, startTime := 0 }
      envAllFail (fun _ => 0) 3 rfl,
    ⟨by decide, term_selection_never_fails.2.1 ["cat", "dog"] envTwo 2 false 4 1
      { latencies := [], resultsChan := [], wg := 2, out := [] } (by decide) (by decide)
      (by decide) (fun _ => rfl)⟩,
    ⟨by decide, by decide, fun _ => List.Perm.swap 0 1 [],
      (term_selection_never_fails.2.2 ["cat", "dog"] envTwo 2 (by decide) (by decide)
        (fun _ => List.Perm.swap 0 1 [])).1⟩⟩

end Test

/-! ### Sorting -/

theorem insertBy_perm {α : Type} (less : α → α → Bool) (x : α) (l : List α) :
    (insertBy less x l).Perm (x :: l) := by
  induction l with
  | nil => exact List.Perm.refl _
  | cons y ys ih =>
    unfold insertBy
    split
    · exact List.Perm.refl _
    · exact (List.Perm.cons y ih).trans (List.Perm.swap x y ys)

theorem foldl_insertBy_perm {α : Type} (less : α → α → Bool) (l acc : List α) :
    (l.foldl (fun acc x => insertBy less x acc) acc).Perm (acc ++ l) := by
  induction l generalizing acc with
  | nil => simp
  | cons x xs ih =>
    simp only [List.foldl_cons]
    refine (ih _).trans ?_
    refine (List.Perm.append_right xs (insertBy_perm less x acc)).trans ?_
    simpa using (@List.perm_middle _ x acc xs).symm

theorem sortSlice_perm {α : Type} (less : α → α → Bool) (l : List α) :
    (sortSlice less l).Perm l := by
  simpa [sortSlice] using foldl_insertBy_perm less l []

theorem insertBy_pairwise {α : Type} (le : α → α → Prop) (less : α → α → Bool)
    (htrans : ∀ a b c, le a b → le b c → le a c)
    (h1 : ∀ a b, less a b = true → le a b) (h2 : ∀ a b, less a b = false → le b a)
    (x : α) (l : List α) (hl : l.Pairwise le) : (insertBy less x l).Pairwise le := by
  induction l with
  | nil => simp [insertBy]
  | cons y ys ih =>
    have hy := List.pairwise_cons.mp hl
    unfold insertBy
    cases hxy : less x y
    · simp only [Bool.false_eq_true, if_false]
      refine List.pairwise_cons.mpr ⟨?_, ih hy.2⟩
      intro z hz
      rcases (List.mem_cons.mp ((insertBy_perm less x ys).mem_iff.mp hz)) with rfl | hz'
      · exact h2 _ _ hxy
      · exact hy.1 z hz'
    · simp only [if_true]
      refine List.pairwise_cons.mpr ⟨?_, hl⟩
      intro z hz
      rcases List.mem_cons.mp hz with rfl | hz'
      · exact h1 _ _ hxy
      · exact htrans _ _ _ (h1 _ _ hxy) (hy.1 z hz')

theorem sortSlice_pairwise {α : Type} (le : α → α → Prop) (less : α → α → Bool)
    (htrans : ∀ a b c, le a b → le b c → le a c)
    (h1 : ∀ a b, less a b = true → le a b) (h2 : ∀ a b, less a b = false → le b a)
    (l : List α) : (sortSlice less l).Pairwise le := by
  have : ∀ (l acc : List α), acc.Pairwise le →
      (l.foldl (fun acc x => insertBy less x acc) acc).Pairwise le := by
    intro l
    induction l with
    | nil => intro acc h; simpa using h
    | cons x xs ih =>
      intro acc h
      simp only [List.foldl_cons]
      exact ih _ (insertBy_pairwise le less htrans h1 h2 x acc h)
  exact this l [] List.Pairwise.nil

namespace Aggregator

theorem ceil_bounds (P : ℚ) (hP0 : 0 < P) (hP1 : P ≤ 100) (N : Nat) (hN : 0 < N) :
    1 ≤ ⌈P / 100 * (N : ℚ)⌉ ∧ ⌈P / 100 * (N : ℚ)⌉ ≤ (N : Int) := by
  have hNq : (0 : ℚ) < (N : ℚ) := by exact_mod_cast hN
  constructor
  · have : (0 : ℚ) < P / 100 * (N : ℚ) := by positivity
    have h := Int.ceil_pos.mpr this
    omega
  · rw [Int.ceil_le]
    have : P / 100 ≤ 1 := by
      rw [div_le_one (by norm_num)]; exact hP1
    calc P / 100 * (N : ℚ) ≤ 1 * (N : ℚ) := by
          exact mul_le_mul_of_nonneg_right this (le_of_lt hNq)
      _ = ((N : Int) : ℚ) := by simp

theorem percentileIndex_spec (P : ℚ) (hP0 : 0 < P) (hP1 : P ≤ 100) (N : Nat) (hN : 0 < N) :
    percentileIndex P N < N ∧ (percentileIndex P N : Int) = ⌈P / 100 * (N : ℚ)⌉ - 1 := by
  obtain ⟨h1, h2⟩ := ceil_bounds P hP0 hP1 N hN
  unfold percentileIndex
  have hmin : Min.min (⌈P / 100 * (N : ℚ)⌉ - 1) ((N : Int) - 1) = ⌈P / 100 * (N : ℚ)⌉ - 1 :=
    min_eq_left (by omega)
  have hmax : Max.max 0 (⌈P / 100 * (N : ℚ)⌉ - 1) = ⌈P / 100 * (N : ℚ)⌉ - 1 :=
    max_eq_right (by omega)
  rw [hmin, hmax]
  constructor
  · omega
  · omega


theorem sorted_nat (l : List Nat) :
    (sortSlice (fun a b => decide (a < b)) l).Pairwise (fun a b => a ≤ b) :=
  sortSlice_pairwise (fun a b => a ≤ b) _ (fun _ _ _ => Nat.le_trans)
    (fun a b h => by simp at h; omega) (fun a b h => by simp at h; omega) l

theorem getD_eq_getElem? (l : List Nat) (i : Nat) (h : i < l.length) :
    l[i]? = some (l.getD i 0) := by
  simp [List.getD, List.getElem?_eq_getElem h]

theorem sorted_hundred :
    sortSlice (fun a b => decide (a < b)) ((List.range 100).map (fun i => (100 - i) * 1000000)) =
      (List.range 100).map (fun i => (i + 1) * 1000000) := by
  decide

theorem index95_hundred :
    percentileIndex 95 ((List.range 100).map (fun i => (i + 1) * 1000000)).length = 94 := by
  have h : ((List.range 100).map (fun i => (i + 1) * 1000000)).length = 100 := by simp
  rw [h]
  unfold percentileIndex
  norm_num
  rfl

theorem index99_hundred :
    percentileIndex 99 ((List.range 100).map (fun i => (i + 1) * 1000000)).length = 98 := by
  have h : ((List.range 100).map (fun i => (i + 1) * 1000000)).length = 100 := by simp
  rw [h]
  unfold percentileIndex
  norm_num
  rfl

/-- C3. For every non-empty list of `N` retained samples, the report's count is `N` and its
P95, P99 and P99.9 are the elements of the retained samples sorted ascending at the index
`ceil(P/100 * N) - 1` clamped to `[0, N-1]` (for these `P` the index lies in `[0, N-1]`
without clamping); for the samples 1, 2, ..., 100 ms, P95 is 95 ms and P99 is 99 ms. -/
theorem report_percentiles_by_index (retained : List Nat) (hne : retained ≠ []) :
    (∃ sorted : List Nat, sorted.Perm retained ∧ sorted.Pairwise (fun a b => a ≤ b) ∧
      (snapshot retained).count = retained.length ∧
      (∀ P : ℚ, P = 95 ∨ P = 99 ∨ P = 99.9 →
        ∃ i : Nat, (i : Int) = Max.max 0 (Min.min (⌈P / 100 * (retained.length : ℚ)⌉ - 1)
            ((retained.length : Int) - 1)) ∧
          (i : Int) = ⌈P / 100 * (retained.length : ℚ)⌉ - 1 ∧ i < retained.length ∧
          sorted[i]? = some (if P = 95 then (snapshot retained).p95
            else if P = 99 then (snapshot retained).p99 else (snapshot retained).p999))) ∧
    (snapshot ((List.range 100).map (fun i => (100 - i) * 1000000))).p95 = 95 * 1000000 ∧
    (snapshot ((List.range 100).map (fun i => (100 - i) * 1000000))).p99 = 99 * 1000000 := by
  have hN : 0 < retained.length := List.length_pos.mpr hne
  have hperm := sortSlice_perm (fun a b => decide (a < b)) retained
  have hlen : (sortSlice (fun a b => decide (a < b)) retained).length = retained.length :=
    hperm.length_eq
  refine ⟨⟨sortSlice (fun a b => decide (a < b)) retained, hperm, sorted_nat retained, ?_, ?_⟩,
    ?_, ?_⟩
  · simp [snapshot, hlen]
  · intro P hP
    have hP0 : 0 < P := by rcases hP with rfl | rfl | rfl <;> norm_num
    have hP1 : P ≤ 100 := by rcases hP with rfl | rfl | rfl <;> norm_num
    obtain ⟨hlt, heq⟩ := percentileIndex_spec P hP0 hP1 retained.length hN
    obtain ⟨c1, c2⟩ := ceil_bounds P hP0 hP1 retained.length hN
    refine ⟨percentileIndex P retained.length, ?_, heq, hlt, ?_⟩
    · rw [heq, min_eq_left (by omega), max_eq_right (by omega)]
    · rw [getD_eq_getElem? _ _ (by rw [hlen]; exact hlt)]
      rcases hP with rfl | rfl | rfl
      · simp [snapshot, hlen]
      · have : ¬ ((99 : ℚ) = 95) := by norm_num
        simp [snapshot, hlen, this]
      · have h1 : ¬ ((99.9 : ℚ) = 95) := by norm_num
        have h2 : ¬ ((99.9 : ℚ) = 99) := by norm_num
        simp only [snapshot, hlen, h1, h2, if_false]
  · show (sortSlice _ _).getD (percentileIndex 95 (sortSlice _ _).length) 0 = _
    rw [sorted_hundred, index95_hundred]
    rfl
  · show (sortSlice _ _).getD (percentileIndex 99 (sortSlice _ _).length) 0 = _
    rw [sorted_hundred, index99_hundred]
    rfl

theorem report_percentiles_by_index_witness :
    [7, 3, 5] ≠ [] ∧
    ((∃ sorted : List Nat, sorted.Perm [7, 3, 5] ∧ sorted.Pairwise (fun a b => a ≤ b) ∧
      (snapshot [7, 3, 5]).count = [7, 3, 5].length ∧
      (∀ P : ℚ, P = 95 ∨ P = 99 ∨ P = 99.9 →
        ∃ i : Nat, (i : Int) = Max.max 0 (Min.min (⌈P / 100 * ([7, 3, 5].length : ℚ)⌉ - 1)
            (([7, 3, 5].length : Int) - 1)) ∧
          (i : Int) = ⌈P / 100 * ([7, 3, 5].length : ℚ)⌉ - 1 ∧ i < [7, 3, 5].length ∧
          sorted[i]? = some (if P = 95 then (snapshot [7, 3, 5]).p95
            else if P = 99 then (snapshot [7, 3, 5]).p99 else (snapshot [7, 3, 5]).p999))) ∧
    (snapshot ((List.range 100).map (fun i => (100 - i) * 1000000))).p95 = 95 * 1000000 ∧
    (snapshot ((List.range 100).map (fun i => (100 - i) * 1000000))).p99 = 99 * 1000000) :=
  ⟨by decide, report_percentiles_by_index [7, 3, 5] (by decide)⟩

end Aggregator

/-! ### float64 comparisons -/

namespace F64

theorem fin_add (a b : ℚ) : F64.fin a + F64.fin b = F64.fin (a + b) := rfl

theorem fin_sub (a b : ℚ) : F64.fin a - F64.fin b = F64.fin (a - b) := by
  show F64.add (F64.fin a) (F64.neg (F64.fin b)) = _
  simp [F64.add, F64.neg, sub_eq_add_neg]

theorem fin_mul (a b : ℚ) : F64.fin a * F64.fin b = F64.fin (a * b) := rfl

theorem sub_nan (a : F64) : a - F64.nan = F64.nan := by
  show F64.add a (F64.neg F64.nan) = _
  cases a <;> rfl

theorem mul_nan (a : F64) : a * F64.nan = F64.nan := by
  show F64.mul a F64.nan = _
  cases a <;> rfl

theorem ge_of_gt (a b : F64) (h : a.gt b = true) : a.ge b = true := by
  cases a <;> cases b <;> simp_all [gt, ge]
  exact le_of_lt h

theorem ge_of_not_gt (a b : F64) (ha : a ≠ nan) (hb : b ≠ nan) (h : a.gt b = false) :
    b.ge a = true := by
  cases a <;> cases b <;> simp_all [gt, ge]

theorem ge_trans (a b c : F64) (h1 : a.ge b = true) (h2 : b.ge c = true) : a.ge c = true := by
  cases a <;> cases b <;> cases c <;> simp_all [ge]
  exact le_trans h2 h1

end F64

/-! ### singlesearch.go -/

namespace SingleSearch

theorem bubble_perm {α : Type} (less : α → α → Bool) (x : α) (l : List α) :
    (bubble less x l).Perm (x :: l) := by
  induction l with
  | nil => exact List.Perm.refl _
  | cons y ys ih =>
    unfold bubble
    split
    · exact (List.Perm.cons y ih).trans (List.Perm.swap x y ys)
    · exact List.Perm.refl _

theorem foldl_bubble_perm {α : Type} (less : α → α → Bool) (l rev : List α) :
    (l.foldl (fun rev x => bubble less x rev) rev).Perm (rev ++ l) := by
  induction l generalizing rev with
  | nil => simp
  | cons x xs ih =>
    simp only [List.foldl_cons]
    refine (ih _).trans ?_
    refine (List.Perm.append_right xs (bubble_perm less x rev)).trans ?_
    simpa using (@List.perm_middle _ x rev xs).symm

theorem insertionSort_perm {α : Type} (less : α → α → Bool) (l : List α) :
    (insertionSort less l).Perm l := by
  unfold insertionSort
  exact (List.reverse_perm _).trans (by simpa using foldl_bubble_perm less l [])

theorem bubble_pairwise {α : Type} (le : α → α → Prop) (good : α → Prop) (less : α → α → Bool)
    (htrans : ∀ a b c, le a b → le b c → le a c)
    (h1 : ∀ a b, less a b = true → le a b)
    (h2 : ∀ a b, good a → good b → less a b = false → le b a)
    (x : α) (hx : good x) (l : List α) (hl : ∀ y ∈ l, good y)
    (hp : l.Pairwise (fun a b => le b a)) :
    (bubble less x l).Pairwise (fun a b => le b a) := by
  induction l with
  | nil => simp [bubble]
  | cons y ys ih =>
    have hy := List.pairwise_cons.mp hp
    unfold bubble
    cases hxy : less x y
    · simp only [Bool.false_eq_true, if_false]
      refine List.pairwise_cons.mpr ⟨?_, hp⟩
      intro z hz
      rcases List.mem_cons.mp hz with rfl | hz'
      · exact h2 _ _ hx (hl _ (List.mem_cons_self _ _)) hxy
      · exact htrans _ _ _ (hy.1 z hz') (h2 _ _ hx (hl _ (List.mem_cons_self _ _)) hxy)
    · simp only [if_true]
      refine List.pairwise_cons.mpr ⟨?_, ih (fun z hz => hl z (List.mem_cons_of_mem _ hz)) hy.2⟩
      intro z hz
      rcases List.mem_cons.mp ((bubble_perm less x ys).mem_iff.mp hz) with rfl | hz'
      · exact h1 _ _ hxy
      · exact hy.1 z hz'

theorem insertionSort_pairwise {α : Type} (le : α → α → Prop) (good : α → Prop)
    (less : α → α → Bool) (htrans : ∀ a b c, le a b → le b c → le a c)
    (h1 : ∀ a b, less a b = true → le a b)
    (h2 : ∀ a b, good a → good b → less a b = false → le b a)
    (l : List α) (hl : ∀ y ∈ l, good y) : (insertionSort less l).Pairwise le := by
  have key : ∀ (l rev : List α), (∀ y ∈ l, good y) → (∀ y ∈ rev, good y) →
      rev.Pairwise (fun a b => le b a) →
      (l.foldl (fun rev x => bubble less x rev) rev).Pairwise (fun a b => le b a) := by
    intro l
    induction l with
    | nil => intro rev _ _ h; simpa using h
    | cons x xs ih =>
      intro rev hl hrev h
      simp only [List.foldl_cons]
      refine ih _ (fun y hy => hl y (List.mem_cons_of_mem _ hy)) ?_
        (bubble_pairwise le good less htrans h1 h2 x (hl x (List.mem_cons_self _ _)) rev hrev h)
      intro y hy
      rcases List.mem_cons.mp ((bubble_perm less x rev).mem_iff.mp hy) with rfl | hy'
      · exact hl _ (List.mem_cons_self _ _)
      · exact hrev y hy'
  unfold insertionSort
  rw [List.pairwise_reverse]
  exact key l [] hl (fun _ h => by cases h) List.Pairwise.nil

theorem parseLoop_raw (parseFloat : String → F64) (es : List Entry) (ads : List AdResult) :
    parseLoop parseFloat (es.map Entry.raw).flatten ads =
      .ok (ads ++ (es.filter (fun e => decide (10 ≤ e.fields.length))).map
        (fun e => mkAd parseFloat e.key e.fields)) := by
  induction es generalizing ads with
  | nil => simp [parseLoop]
  | cons e es ih =>
    simp only [List.map_cons, List.flatten_cons, Entry.raw, List.cons_append, List.nil_append,
      parseLoop, asString, asArr, ok_bind]
    by_cases h : e.fields.length < 10
    · have h' : ¬ 10 ≤ e.fields.length := by omega
      simp only [h, if_true, List.filter_cons, h', decide_False, Bool.false_eq_true, if_false]
      exact ih ads
    · have h' : 10 ≤ e.fields.length := by omega
      simp only [h, if_false, List.filter_cons, h', decide_True, if_true, List.map_cons]
      show parseLoop parseFloat (List.map Entry.raw es).flatten _ = _
      rw [ih]
      simp

/-- When no ad of a well-formed reply gets a NaN score, the script prints the ads built
from the entries with at least 10 field elements, none added or lost, in non-increasing
order of `Score`. -/
theorem main_ranks_without_nan (parseFloat : String → F64) (searchTerm : String)
    (hterm : searchTerm ≠ "") (r : Reply)
    (hnan : ∀ e ∈ r.entries, 10 ≤ e.fields.length →
      (mkAd parseFloat e.key e.fields).Score ≠ F64.nan) :
    ∃ ads, main parseFloat searchTerm true (some r.raw) = .ok (.ranked r.total ads) ∧
      ads.Pairwise (fun a b => a.Score.ge b.Score = true) ∧
      ads.Perm ((r.entries.filter (fun e => decide (10 ≤ e.fields.length))).map
        (fun e => mkAd parseFloat e.key e.fields)) ∧
      (ads.map (fun a => a.Key)).Perm
        ((r.entries.filter (fun e => decide (10 ≤ e.fields.length))).map (fun e => e.key)) := by
  have hperm := insertionSort_perm less
    ((r.entries.filter (fun e => decide (10 ≤ e.fields.length))).map
      (fun e => mkAd parseFloat e.key e.fields))
  refine ⟨_, ?_, ?_, hperm, ?_⟩
  · simp only [main, hterm, if_false, Bool.not_true, Bool.false_eq_true, Reply.raw, asInt,
      ok_bind, parseLoop_raw, List.nil_append]
  · refine insertionSort_pairwise (fun a b => a.Score.ge b.Score = true)
      (fun a => a.Score ≠ F64.nan) less
      (fun a b c h1 h2 => F64.ge_trans _ _ _ h1 h2)
      (fun a b h => F64.ge_of_gt a.Score b.Score h)
      (fun a b ha hb h => F64.ge_of_not_gt a.Score b.Score ha hb h) _ ?_
    intro y hy
    obtain ⟨e, he, rfl⟩ := List.mem_map.mp hy
    have := List.mem_filter.mp he
    exact hnan e this.1 (by simpa using this.2)
  · have := hperm.map (fun a => a.Key)
    refine this.trans ?_
    rw [List.map_map]
    exact List.Perm.of_eq (List.map_congr_left (fun e _ => rfl))

theorem mkAd_one :
    mkAd sampleParse "ad:1" (adFields "0.06" "0" "0" "0.5" "phone") =
      ⟨"ad:1", "phone", .fin 2.25⟩ := by
  simp [mkAd, adFields, strAt, sampleParse, ctrPoints, relPoints, landPoints, F64.gt]
  norm_num
  simp only [F64.fin_add, F64.fin_sub, F64.fin_mul]
  norm_num

theorem mkAd_two :
    mkAd sampleParse "ad:2" (adFields "0.06" "0" "0" "NaN" "phone") =
      ⟨"ad:2", "phone", .nan⟩ := by
  simp [mkAd, adFields, strAt, sampleParse, ctrPoints, relPoints, landPoints, F64.gt,
    F64.sub_nan, F64.mul_nan]

theorem mkAd_three :
    mkAd sampleParse "ad:3" (adFields "0.06" "0.9" "0.8" "0.1" "phone") =
      ⟨"ad:3", "phone", .fin 9⟩ := by
  simp [mkAd, adFields, strAt, sampleParse, ctrPoints, relPoints, landPoints, F64.gt]
  norm_num
  simp only [F64.fin_add, F64.fin_sub, F64.fin_mul]
  norm_num

theorem length_adFields (a b c d e : String) : (adFields a b c d e).length = 10 := rfl

/-- C8 (the code at the failing input). On the well-formed reply `nanReply`, three ads of
ten field elements each, the second with the similarity "NaN", the script prints
ad:1 (score 2.25), ad:2 (score NaN), ad:3 (score 9) in this order: every comparison with
the NaN score is false, so the sort moves nothing, and the printed list is not in
non-increasing order of `Score`, the last ad outranking the first. -/
theorem main_unranked_on_nan :
    (∀ e ∈ nanReply.entries, 10 ≤ e.fields.length) ∧
    main sampleParse "phone" true (some nanReply.raw) =
      .ok (.ranked 3 [⟨"ad:1", "phone", .fin 2.25⟩, ⟨"ad:2", "phone", .nan⟩,
        ⟨"ad:3", "phone", .fin 9⟩]) ∧
    ¬ List.Pairwise (fun a b : AdResult => a.Score.ge b.Score = true)
      [⟨"ad:1", "phone", .fin 2.25⟩, ⟨"ad:2", "phone", .nan⟩, ⟨"ad:3", "phone", .fin 9⟩] ∧
    ¬ List.Chain' (fun a b : AdResult => a.Score.ge b.Score = true)
      [⟨"ad:1", "phone", .fin 2.25⟩, ⟨"ad:2", "phone", .nan⟩, ⟨"ad:3", "phone", .fin 9⟩] ∧
    F64.gt (.fin 9) (.fin 2.25) = true := by
  have h : parseLoop sampleParse (nanReply.entries.map Entry.raw).flatten [] =
      .ok [⟨"ad:1", "phone", .fin 2.25⟩, ⟨"ad:2", "phone", .nan⟩, ⟨"ad:3", "phone", .fin 9⟩] := by
    simp only [nanReply, List.map, List.flatten, Entry.raw, List.cons_append, List.nil_append,
      List.append_nil, parseLoop, asString, asArr, ok_bind, length_adFields, lt_irrefl, if_false,
      mkAd_one, mkAd_two, mkAd_three]
  have h2 : main sampleParse "phone" true (some nanReply.raw) =
      .ok (.ranked 3 (insertionSort less
        [⟨"ad:1", "phone", .fin 2.25⟩, ⟨"ad:2", "phone", .nan⟩, ⟨"ad:3", "phone", .fin 9⟩])) := by
    simp only [main, Reply.raw, asInt, ok_bind, h]
    simp [nanReply]
  refine ⟨?_, ?_, ?_, ?_, ?_⟩
  · intro e he
    simp only [nanReply, List.mem_cons, List.mem_singleton, List.not_mem_nil, or_false] at he
    rcases he with rfl | rfl | rfl <;> simp [length_adFields]
  · rw [h2]
    simp [insertionSort, bubble, less, F64.gt]
  · simp [F64.ge]
  · simp [F64.ge]
  · simp [F64.gt]
    norm_num

end SingleSearch

end VectorSearch
